import Mathlib

/-!
Shallow embedding of the training engine of `neural-network.js`
(class `NeuralNetwork`): topology/parameter initialization, forward
propagation, backpropagation with per-operation step tracing, step-cursor
navigation and the display snapshot.  JavaScript numbers are modelled as
real numbers; JS arrays as Lean lists.  An out-of-range JS array read
yields `undefined` (propagating as `NaN` through arithmetic); since `ℝ`
has no `NaN`, such reads are modelled with `List.getD _ _ 0` defaults —
every claim proved below only concerns in-range accesses, where the two
semantics agree.  The `description` string of each step record is a
`toFixed` rendering of numeric fields that are themselves captured in the
record, and the constant `phase` string is determined by the step type;
both are presentation-only and omitted from the `Step` model.
-/

namespace NeuralNet

/-- The `activationFunction` configuration string.  `other` stands for any
string different from the three recognized names (the `default` branch of
the `switch` in `activate`). -/
inductive ActName where
  | sigmoid
  | relu
  | tanh
  | other
  deriving DecidableEq, Repr

/-- A connection highlight record `{fromLayer, fromNeuron, toLayer, toNeuron}`. -/
structure Conn where
  fromLayer : Nat
  fromNeuron : Nat
  toLayer : Nat
  toNeuron : Nat
  deriving DecidableEq, Repr

/-- Step records pushed onto `this.steps` (one constructor per `type`
discriminant; field order follows the object literals in the source). -/
inductive Step where
  | input (layerIndex : Nat) (highlightNeurons : List (Nat × Nat))
      (activations : List (List ℝ))
  | forward_neuron (layerIndex neuronIndex : Nat) (weightedSum activation : ℝ)
      (inputWeights inputActivations : List ℝ) (bias : ℝ)
      (highlightConnections : List Conn) (highlightNeurons : List (Nat × Nat))
  | forward_layer_complete (layerIndex : Nat) (activations : List (List ℝ))
      (highlightNeurons : List (Nat × Nat))
  | loss (output target error lossVal : ℝ)
  | backward_delta (layerIndex : Nat) (neuronIndex : Option Nat) (delta : ℝ)
      (highlightNeurons : List (Nat × Nat))
      (highlightConnections : Option (List Conn))
  | weight_update (layerIndex fromNeuron toNeuron : Nat)
      (oldWeight newWeight gradient weightUpdate : ℝ)
      (highlightConnections : List Conn)
  | complete (weights previousWeights : List (List (List ℝ)))

/-- The instance state of `class NeuralNetwork`. -/
structure NN where
  inputSize : Nat
  hiddenLayers : Nat
  neuronsPerLayer : Nat
  activationFunction : ActName
  learningRate : ℝ
  layers : List Nat
  weights : List (List (List ℝ))
  biases : List (List ℝ)
  activations : List (List ℝ)
  preActivations : List (Option (List ℝ))
  deltas : List (List ℝ)
  weightGradients : List (List (List ℝ))
  biasGradients : List (List ℝ)
  previousWeights : List (List (List ℝ))
  steps : List Step
  currentStepIndex : Int

/-- JS `x || d` on a non-negative integer configuration field: `0` is falsy
and is replaced by the default. -/
def jsOrNat (x d : Nat) : Nat := if x = 0 then d else x

/-- JS `x || d` on a numeric field: `0` is falsy and is replaced by the
default (`NaN`, also falsy, is not representable in `ℝ`). -/
noncomputable def jsOrReal (x d : ℝ) : ℝ := if x = 0 then d else x

/-- `sigmoid(x)`: the input is clamped to `[-500, 500]` before the
exponential, then `1 / (1 + e^{-x})`. -/
noncomputable def sigmoid (x : ℝ) : ℝ :=
  1 / (1 + Real.exp (-(max (-500) (min 500 x))))

/-- `activate(x, derivative)`: dispatch on the configured activation name.
The `default` branch returns `sigmoid(x)` even when `derivative` is set,
exactly as in the source. -/
noncomputable def activate (act : ActName) (x : ℝ) (derivative : Bool) : ℝ :=
  match act with
  | ActName.sigmoid =>
      if derivative then sigmoid x * (1 - sigmoid x) else sigmoid x
  | ActName.relu =>
      if derivative then (if x > 0 then 1 else 0) else max 0 x
  | ActName.tanh =>
      if derivative then 1 - Real.tanh x * Real.tanh x else Real.tanh x
  | ActName.other => sigmoid x

/-!  Initialization (`initializeNetwork`).  `Math.random()` draws are
modelled by an oracle `rnd : ℕ → ℝ` together with a counter giving the
position of the next draw; each draw consumes one position, in source
order (for each transition: all weights row by row, then all biases). -/

/-- The inner weight loop: `n` draws of `(Math.random()*2 - 1) * limit`. -/
noncomputable def initNeuronWeights (rnd : ℕ → ℝ) (k n : Nat) (limit : ℝ) :
    List ℝ × ℕ :=
  match n with
  | 0 => ([], k)
  | n' + 1 =>
      let v := (rnd k * 2 - 1) * limit
      let r := initNeuronWeights rnd (k + 1) n' limit
      (v :: r.1, r.2)

/-- The per-transition weight loop: `rows` rows of `cols` draws each. -/
noncomputable def initLayerWeights (rnd : ℕ → ℝ) (k rows cols : Nat)
    (limit : ℝ) : List (List ℝ) × ℕ :=
  match rows with
  | 0 => ([], k)
  | r' + 1 =>
      let row := initNeuronWeights rnd k cols limit
      let rest := initLayerWeights rnd row.2 r' cols limit
      (row.1 :: rest.1, rest.2)

/-- The per-transition bias loop: `n` draws of `(Math.random()*2 - 1) * 0.1`. -/
noncomputable def initLayerBiases (rnd : ℕ → ℝ) (k n : Nat) : List ℝ × ℕ :=
  match n with
  | 0 => ([], k)
  | n' + 1 =>
      let v := (rnd k * 2 - 1) * 0.1
      let r := initLayerBiases rnd (k + 1) n'
      (v :: r.1, r.2)

/-- The transition loop of `initializeNetwork`: for each adjacent pair of
layer sizes, Xavier weights with `limit = sqrt(6 / (n_in + n_out))`, then
biases. -/
noncomputable def initTransitions (rnd : ℕ → ℝ) (k : ℕ) (ls : List Nat) :
    List (List (List ℝ)) × List (List ℝ) × ℕ :=
  match ls with
  | a :: b :: rest =>
      let limit := Real.sqrt (6 / ((a : ℝ) + (b : ℝ)))
      let lw := initLayerWeights rnd k b a limit
      let lb := initLayerBiases rnd lw.2 b
      let r := initTransitions rnd lb.2 (b :: rest)
      (lw.1 :: r.1, lb.1 :: r.2.1, r.2.2)
  | _ => ([], [], k)

/-- `initializeNetwork()`: rebuild `layers` as `[inputSize, neuronsPerLayer
repeated hiddenLayers times, 1]`, redraw all weights and biases, and store
a deep copy of the fresh weights in `previousWeights` (a deep copy of an
immutable value is the value itself). -/
noncomputable def initializeNetwork (nn : NN) (rnd : ℕ → ℝ) (k : ℕ) :
    NN × ℕ :=
  let layers := nn.inputSize ::
    (List.replicate nn.hiddenLayers nn.neuronsPerLayer ++ [1])
  let r := initTransitions rnd k layers
  ({ nn with layers := layers, weights := r.1, biases := r.2.1,
             previousWeights := r.1 }, r.2.2)

/-- The configuration object passed to the constructor.  In the source,
an absent field is `undefined` (falsy) and replaced by the default; the
model requires every field present, with JS falsiness of `0` reproduced
by `jsOrNat` / `jsOrReal` in `construct`.  An unrecognized activation
string is `ActName.other`. -/
structure Config where
  inputSize : Nat
  hiddenLayers : Nat
  neuronsPerLayer : Nat
  activationFunction : ActName
  learningRate : ℝ

/-- `constructor(config)`: normalize the configuration with `||` defaults,
zero all stored structure, set the step cursor to `-1` and call
`initializeNetwork`. -/
noncomputable def construct (config : Config) (rnd : ℕ → ℝ) : NN :=
  (initializeNetwork
    { inputSize := jsOrNat config.inputSize 3
      hiddenLayers := jsOrNat config.hiddenLayers 2
      neuronsPerLayer := jsOrNat config.neuronsPerLayer 4
      activationFunction := config.activationFunction
      learningRate := jsOrReal config.learningRate 0.5
      layers := [], weights := [], biases := []
      activations := [], preActivations := []
      deltas := [], weightGradients := [], biasGradients := []
      previousWeights := []
      steps := [], currentStepIndex := -1 } rnd 0).1

/-!  Forward propagation (`forward`). -/

/-- The weighted-sum loop of a forward neuron: starting from the bias,
`z += currentActivation[i] * layerWeights[j][i]` for every index `i` of
`currentActivation` (the loop bound is the activation length, as in the
source). -/
noncomputable def dotZ (bj : ℝ) (a wj : List ℝ) : ℝ :=
  (List.range a.length).foldl (fun z i => z + a.getD i 0 * wj.getD i 0) bj

/-- The neuron loop of one forward layer: `j` ranges over the rows of
`layerWeights`; the output layer (`isLast`) always applies `sigmoid`,
hidden layers apply the configured activation.  Returns the
pre-activations, the new activations, and the `forward_neuron` steps. -/
noncomputable def forwardNeurons (act : ActName) (isLast : Bool) (l j : Nat)
    (rows : List (List ℝ)) (bl a : List ℝ) :
    List ℝ × List ℝ × List Step :=
  match rows with
  | [] => ([], [], [])
  | wj :: rest =>
      let bj := bl.getD j 0
      let z := dotZ bj a wj
      let av := if isLast then sigmoid z else activate act z false
      let step := Step.forward_neuron (l + 1) j z av wj a bj
        ((List.range a.length).map (fun i => Conn.mk l i (l + 1) j))
        [(l + 1, j)]
      let r := forwardNeurons act isLast l (j + 1) rest bl a
      (z :: r.1, av :: r.2.1, step :: r.2.2)

/-- The layer loop of `forward`: walks the weight matrices with the current
layer-transition index `l`, threading the current activation and the
accumulated `this.activations` snapshot (used by the
`forward_layer_complete` step).  Returns the new per-layer activations,
the per-layer pre-activation vectors, the emitted steps, and the final
activation vector. -/
noncomputable def forwardLoop (act : ActName) (ws : List (List (List ℝ)))
    (bs : List (List ℝ)) (l : Nat) (a : List ℝ) (accActs : List (List ℝ)) :
    List (List ℝ) × List (List ℝ) × List Step × List ℝ :=
  match ws with
  | [] => ([], [], [], a)
  | wl :: wrest =>
      let isLast := wrest.isEmpty
      let fn := forwardNeurons act isLast l 0 wl (bs.getD l []) a
      let na := fn.2.1
      let acc' := accActs ++ [na]
      let cstep := Step.forward_layer_complete (l + 1) acc'
        ((List.range na.length).map (fun i => (l + 1, i)))
      let r := forwardLoop act wrest bs (l + 1) na acc'
      (na :: r.1, fn.1 :: r.2.1, fn.2.2 ++ cstep :: r.2.2.1, r.2.2.2)

/-- `forward(input)`: reset the step list, store `[input]` as the layer-0
activations and `null` as its pre-activation, run the layer loop and
return `currentActivation[0]` (the output layer has one neuron whenever
the network was built by `initializeNetwork`). -/
noncomputable def forward (nn : NN) (input : List ℝ) : NN × ℝ :=
  let istep := Step.input 0
    ((List.range input.length).map (fun i => (0, i))) [input]
  let r := forwardLoop nn.activationFunction nn.weights nn.biases 0 input
    [input]
  ({ nn with activations := input :: r.1,
             preActivations := none :: r.2.1.map some,
             steps := istep :: r.2.2.1 },
   r.2.2.2.getD 0 0)

/-!  Backward propagation (`backward`). -/

/-- The inner delta sum of a hidden neuron: `deltaSum +=
nextLayerDeltas[k] * nextLayerWeights[k][j]` for every index `k` of
`nextLayerDeltas`. -/
noncomputable def deltaSumAt (nextDeltas : List ℝ)
    (nextWeights : List (List ℝ)) (j : Nat) : ℝ :=
  (List.range nextDeltas.length).foldl
    (fun acc k => acc + nextDeltas.getD k 0 * (nextWeights.getD k []).getD j 0)
    0

/-- The neuron loop of one hidden-delta layer: `j` counts up while `count`
(`this.layers[l+1]`) counts down; each neuron multiplies its delta sum by
`activate(z, true)` at `z = preActivations[l+1][j]`. -/
noncomputable def hiddenDeltaNeurons (act : ActName) (l j count : Nat)
    (nextDeltas : List ℝ) (nextWeights : List (List ℝ)) (preActs : List ℝ) :
    List ℝ × List Step :=
  match count with
  | 0 => ([], [])
  | c + 1 =>
      let deltaSum := deltaSumAt nextDeltas nextWeights j
      let z := preActs.getD j 0
      let delta := deltaSum * activate act z true
      let step := Step.backward_delta (l + 1) (some j) delta [(l + 1, j)]
        (some ((List.range nextDeltas.length).map
          (fun k => Conn.mk (l + 1) j (l + 2) k)))
      let r := hiddenDeltaNeurons act l (j + 1) c nextDeltas nextWeights
        preActs
      (delta :: r.1, step :: r.2)

/-- The descending layer loop `for (l = weights.length - 2; l >= 0; l--)`:
with fuel `k`, processes `l = k-1, ..., 0`, overwriting `deltas[l]` in
place (`List.set`), each layer reading `deltas[l+1]` as set by the
previous iteration (or the initial output delta). -/
noncomputable def hiddenDeltasLoop (act : ActName) (layers : List Nat)
    (ws : List (List (List ℝ))) (preacts : List (Option (List ℝ)))
    (deltas : List (List ℝ)) (k : Nat) : List (List ℝ) × List Step :=
  match k with
  | 0 => (deltas, [])
  | k' + 1 =>
      let hd := hiddenDeltaNeurons act k' 0 (layers.getD (k' + 1) 0)
        (deltas.getD (k' + 1) []) (ws.getD (k' + 1) [])
        ((preacts.getD (k' + 1) none).getD [])
      let r := hiddenDeltasLoop act layers ws preacts (deltas.set k' hd.1) k'
      (r.1, hd.2 ++ r.2)

/-- The innermost update loop over the source neurons `i` of one weight
row: `gradient = delta * activations[l][i]`, `weightUpdate =
-learningRate * gradient`, `weights[l][j][i] += weightUpdate`, one
`weight_update` step per weight.  Returns the updated row, the row of
weight gradients, and the steps. -/
noncomputable def updateRow (lr : ℝ) (l j i : Nat) (ws : List ℝ) (delta : ℝ)
    (al : List ℝ) : List ℝ × List ℝ × List Step :=
  match ws with
  | [] => ([], [], [])
  | w :: rest =>
      let gradient := delta * al.getD i 0
      let wUpd := -lr * gradient
      let neww := w + wUpd
      let step := Step.weight_update l i j w neww gradient wUpd
        [Conn.mk l i (l + 1) j]
      let r := updateRow lr l j (i + 1) rest delta al
      (neww :: r.1, gradient :: r.2.1, step :: r.2.2)

/-- The destination-neuron loop of the update phase: for each row `j`,
read `delta = deltas[l][j]`, record it as the bias gradient, update the
weight row, then `biases[l][j] -= learningRate * delta` (modelled by
`List.set`, threaded like the in-place mutation).  Returns the updated
rows, the updated layer biases, the weight-gradient rows, the bias
gradients, and the steps. -/
noncomputable def updateRows (lr : ℝ) (l j : Nat) (rows : List (List ℝ))
    (bl dl al : List ℝ) :
    List (List ℝ) × List ℝ × List (List ℝ) × List ℝ × List Step :=
  match rows with
  | [] => ([], bl, [], [], [])
  | wj :: rest =>
      let delta := dl.getD j 0
      let rw := updateRow lr l j 0 wj delta al
      let bl' := bl.set j (bl.getD j 0 - lr * delta)
      let r := updateRows lr l (j + 1) rest bl' dl al
      (rw.1 :: r.1, r.2.1, rw.2.1 :: r.2.2.1, delta :: r.2.2.2.1,
       rw.2.2 ++ r.2.2.2.2)

/-- The ascending transition loop of the update phase, threading the
in-place bias mutations through `List.set` on the whole `biases` list. -/
noncomputable def updateLoop (lr : ℝ) (l : Nat) (ws : List (List (List ℝ)))
    (bs ds acts : List (List ℝ)) :
    List (List (List ℝ)) × List (List ℝ) × List (List (List ℝ)) ×
      List (List ℝ) × List Step :=
  match ws with
  | [] => ([], bs, [], [], [])
  | wl :: wrest =>
      let u := updateRows lr l 0 wl (bs.getD l []) (ds.getD l [])
        (acts.getD l [])
      let r := updateLoop lr (l + 1) wrest (bs.set l u.2.1) ds acts
      (u.1 :: r.1, r.2.1, u.2.2.1 :: r.2.2.1, u.2.2.2.1 :: r.2.2.2.1,
       u.2.2.2.2 ++ r.2.2.2.2)

/-- The record returned by `backward`, bundled with the updated instance
state. -/
structure BackResult where
  state : NN
  loss : ℝ
  output : ℝ
  error : ℝ

/-- `backward(target)`: read the output from the stored activations,
compute `error` and the halved squared loss, snapshot `previousWeights`,
emit the `loss` step, compute the output delta with the sigmoid
derivative `output * (1 - output)` (the `outputZ` read from
`preActivations` in the source is never used), initialize `deltas` to
`weights.length` empty rows with the last row set to `[outputDelta]`,
backpropagate the hidden deltas, then run the weight/bias update phase
and emit the final `complete` step. -/
noncomputable def backward (nn : NN) (target : ℝ) : BackResult :=
  let output := (nn.activations.getLastD []).getD 0 0
  let error := output - target
  let loss := 0.5 * error * error
  let prevW := nn.weights
  let lossStep := Step.loss output target error loss
  let sigmoidDerivative := output * (1 - output)
  let outputDelta := error * sigmoidDerivative
  let outStep := Step.backward_delta (nn.layers.length - 1) none outputDelta
    [(nn.layers.length - 1, 0)] none
  let m := nn.weights.length
  let deltas0 := (List.replicate m ([] : List ℝ)).set (m - 1) [outputDelta]
  let hd := hiddenDeltasLoop nn.activationFunction nn.layers nn.weights
    nn.preActivations deltas0 (m - 1)
  let u := updateLoop nn.learningRate 0 nn.weights nn.biases hd.1
    nn.activations
  let completeStep := Step.complete u.1 prevW
  { state :=
      { nn with previousWeights := prevW, deltas := hd.1,
                weightGradients := u.2.2.1, biasGradients := u.2.2.2.1,
                weights := u.1, biases := u.2.1,
                steps := nn.steps ++ lossStep :: outStep :: hd.2 ++
                  u.2.2.2.2 ++ [completeStep] },
    loss := loss, output := output, error := error }

/-!  Step navigation and training. -/

/-- `getCurrentStep()`: the step under the cursor when `0 ≤
currentStepIndex < steps.length`, otherwise `null`. -/
def getCurrentStep (nn : NN) : Option Step :=
  if 0 ≤ nn.currentStepIndex ∧ nn.currentStepIndex < (nn.steps.length : ℤ)
  then nn.steps.get? nn.currentStepIndex.toNat
  else none

/-- `nextStep()`: advance the cursor unless it is already at the last
step. -/
def nextStep (nn : NN) : NN × Option Step :=
  if nn.currentStepIndex < (nn.steps.length : ℤ) - 1 then
    let nn' := { nn with currentStepIndex := nn.currentStepIndex + 1 }
    (nn', getCurrentStep nn')
  else (nn, none)

/-- `previousStep()`: move the cursor back unless it is at or before the
first step. -/
def previousStep (nn : NN) : NN × Option Step :=
  if nn.currentStepIndex > 0 then
    let nn' := { nn with currentStepIndex := nn.currentStepIndex - 1 }
    (nn', getCurrentStep nn')
  else (nn, none)

/-- `resetSteps()`: put the cursor before the first step. -/
def resetSteps (nn : NN) : NN :=
  { nn with currentStepIndex := -1 }

/-- The record returned by `train`: the spread of the `backward` result
plus the step list. -/
structure TrainResult where
  loss : ℝ
  output : ℝ
  error : ℝ
  steps : List Step

/-- `train(input, target)`: reset the cursor, forward, backward, return
`{...result, steps}` together with the final state. -/
noncomputable def train (nn : NN) (input : List ℝ) (target : ℝ) :
    NN × TrainResult :=
  let f := forward (resetSteps nn) input
  let b := backward f.1 target
  (b.state,
   { loss := b.loss, output := b.output, error := b.error,
     steps := b.state.steps })

/-- `getWeightChange(layerIndex, toNeuron, fromNeuron)`: `current -
previous` when both layer snapshots exist (a missing JS index is falsy),
else `0`. -/
noncomputable def getWeightChange (nn : NN) (layerIndex toNeuron
    fromNeuron : Nat) : ℝ :=
  if layerIndex < nn.previousWeights.length ∧ layerIndex < nn.weights.length
  then ((nn.weights.getD layerIndex []).getD toNeuron []).getD fromNeuron 0 -
    ((nn.previousWeights.getD layerIndex []).getD toNeuron []).getD
      fromNeuron 0
  else 0

/-!  Reference semantics of `getNetworkData`.

The display snapshot is the object literal `{layers: this.layers, weights:
this.weights, ...}`: each field is the engine's own array reference, with
no copy taken (contrast the `JSON.parse(JSON.stringify(...))` deep copies
used elsewhere in the file).  JS aliasing is modelled explicitly: an
array reference is an address into a heap, a heap cell holds the (nested)
array value reachable from that address, and an assignment through a
reference rewrites the cell.  The engine state holds one address per
field; `getNetworkData` builds a record out of those same addresses. -/

/-- A heap of JS values, one nested numeric array per address. -/
def JsHeap (α : Type) : Type := Nat → α

/-- Assignment through an array reference: rewrite the addressed cell. -/
def heapWrite {α : Type} (h : JsHeap α) (r : Nat) (v : α) : JsHeap α :=
  fun q => if q = r then v else h q

/-- The array references held by the engine instance for the eight fields
exposed to the renderer. -/
structure EngineRefs where
  layers : Nat
  weights : Nat
  biases : Nat
  activations : Nat
  preActivations : Nat
  deltas : Nat
  weightGradients : Nat
  previousWeights : Nat

/-- The object returned by `getNetworkData()`. -/
structure NetworkData where
  layers : Nat
  weights : Nat
  biases : Nat
  activations : Nat
  preActivations : Nat
  deltas : Nat
  weightGradients : Nat
  previousWeights : Nat

/-- `getNetworkData()`: a fresh object literal whose fields are the
engine's own references — no copy of any array is made. -/
def getNetworkData (e : EngineRefs) : NetworkData :=
  { layers := e.layers, weights := e.weights, biases := e.biases,
    activations := e.activations, preActivations := e.preActivations,
    deltas := e.deltas, weightGradients := e.weightGradients,
    previousWeights := e.previousWeights }

/-!  General list helpers used throughout the proofs. -/

lemma foldl_range_add (f : ℕ → ℝ) (b : ℝ) (n : ℕ) :
    (List.range n).foldl (fun acc i => acc + f i) b =
      b + ∑ i in Finset.range n, f i := by
  induction n with
  | zero => simp
  | succ n ih =>
      rw [List.range_succ, List.foldl_append, ih, Finset.sum_range_succ]
      simp [add_assoc]

lemma getD_set_self {α : Type} (l : List α) (n : Nat) (a d : α)
    (h : n < l.length) : (l.set n a).getD n d = a := by
  induction l generalizing n with
  | nil => simp at h
  | cons x xs ih =>
      cases n with
      | zero => simp [List.set]
      | succ n => simpa [List.set] using ih n (by simpa using h)

lemma getD_set_ne {α : Type} (l : List α) (n m : Nat) (a d : α)
    (h : n ≠ m) : (l.set n a).getD m d = l.getD m d := by
  induction l generalizing n m with
  | nil => simp [List.set]
  | cons x xs ih =>
      cases n with
      | zero =>
          cases m with
          | zero => exact absurd rfl h
          | succ m => simp [List.set]
      | succ n =>
          cases m with
          | zero => simp [List.set]
          | succ m =>
              simpa [List.set] using ih n m (fun hc => h (by omega))

lemma map_sum_eq_sum_getD {α : Type} (xs : List α) (f : α → ℕ) (d : α) :
    (xs.map f).sum = ∑ i in Finset.range xs.length, f (xs.getD i d) := by
  induction xs with
  | nil => simp
  | cons x xs ih =>
      rw [List.map_cons, List.sum_cons, ih, List.length_cons,
        Finset.sum_range_succ']
      simp [Nat.add_comm]

/-- `dotZ` computes the bias plus the dot product of the weight row with
the previous activations (summation over the source-neuron indices). -/
lemma dotZ_eq_sum (bj : ℝ) (a wj : List ℝ) :
    dotZ bj a wj =
      bj + ∑ i in Finset.range a.length, wj.getD i 0 * a.getD i 0 := by
  rw [dotZ, foldl_range_add (fun i => a.getD i 0 * wj.getD i 0)]
  exact congrArg (bj + ·) (Finset.sum_congr rfl fun i _ => mul_comm _ _)

/-- `deltaSumAt` computes the sum over the next layer of delta times
connecting weight. -/
lemma deltaSumAt_eq_sum (nd : List ℝ) (nw : List (List ℝ)) (j : Nat) :
    deltaSumAt nd nw j =
      ∑ k in Finset.range nd.length, nd.getD k 0 * (nw.getD k []).getD j 0 := by
  rw [deltaSumAt,
    foldl_range_add (fun k => nd.getD k 0 * (nw.getD k []).getD j 0)]
  simp

/-!  Characterization of the forward pass. -/

lemma getD_map_some {α : Type} (xs : List α) (n : Nat) (d : α)
    (h : n < xs.length) : (xs.map some).getD n none = some (xs.getD n d) := by
  induction xs generalizing n with
  | nil => simp at h
  | cons x xs ih =>
      cases n with
      | zero => simp
      | succ n =>
          simpa using ih n (by simpa using h)

lemma forwardNeurons_pre_length (act : ActName) (isLast : Bool) (l : Nat) :
    ∀ (rows : List (List ℝ)) (j : Nat) (bl a : List ℝ),
      (forwardNeurons act isLast l j rows bl a).1.length = rows.length := by
  intro rows
  induction rows with
  | nil => intro j bl a; simp [forwardNeurons]
  | cons wj rest ih => intro j bl a; simp [forwardNeurons, ih]

lemma forwardNeurons_act_length (act : ActName) (isLast : Bool) (l : Nat) :
    ∀ (rows : List (List ℝ)) (j : Nat) (bl a : List ℝ),
      (forwardNeurons act isLast l j rows bl a).2.1.length = rows.length := by
  intro rows
  induction rows with
  | nil => intro j bl a; simp [forwardNeurons]
  | cons wj rest ih => intro j bl a; simp [forwardNeurons, ih]

lemma forwardNeurons_pre_getD (act : ActName) (isLast : Bool) (l : Nat) :
    ∀ (rows : List (List ℝ)) (j n : Nat) (bl a : List ℝ), n < rows.length →
      (forwardNeurons act isLast l j rows bl a).1.getD n 0 =
        dotZ (bl.getD (j + n) 0) a (rows.getD n []) := by
  intro rows
  induction rows with
  | nil => intro j n bl a h; simp at h
  | cons wj rest ih =>
      intro j n bl a h
      cases n with
      | zero => simp [forwardNeurons]
      | succ n =>
          have := ih (j + 1) n bl a (by simpa using h)
          simpa [forwardNeurons, Nat.add_assoc, Nat.add_comm 1 n] using this

lemma forwardNeurons_act_getD (act : ActName) (isLast : Bool) (l : Nat) :
    ∀ (rows : List (List ℝ)) (j n : Nat) (bl a : List ℝ), n < rows.length →
      (forwardNeurons act isLast l j rows bl a).2.1.getD n 0 =
        (if isLast then sigmoid (dotZ (bl.getD (j + n) 0) a (rows.getD n []))
         else activate act (dotZ (bl.getD (j + n) 0) a (rows.getD n []))
           false) := by
  intro rows
  induction rows with
  | nil => intro j n bl a h; simp at h
  | cons wj rest ih =>
      intro j n bl a h
      cases n with
      | zero => simp [forwardNeurons]
      | succ n =>
          have := ih (j + 1) n bl a (by simpa using h)
          simpa [forwardNeurons, Nat.add_assoc, Nat.add_comm 1 n] using this

lemma forwardLoop_acts_length (act : ActName) :
    ∀ (ws : List (List (List ℝ))) (bs : List (List ℝ)) (l : Nat)
      (a : List ℝ) (acc : List (List ℝ)),
      (forwardLoop act ws bs l a acc).1.length = ws.length := by
  intro ws
  induction ws with
  | nil => intro bs l a acc; simp [forwardLoop]
  | cons wl wrest ih => intro bs l a acc; simp [forwardLoop, ih]

lemma forwardLoop_pre_length (act : ActName) :
    ∀ (ws : List (List (List ℝ))) (bs : List (List ℝ)) (l : Nat)
      (a : List ℝ) (acc : List (List ℝ)),
      (forwardLoop act ws bs l a acc).2.1.length = ws.length := by
  intro ws
  induction ws with
  | nil => intro bs l a acc; simp [forwardLoop]
  | cons wl wrest ih => intro bs l a acc; simp [forwardLoop, ih]

/-- Each layer of activations produced by the layer loop is the neuron
loop applied to the previous layer of activations, with the output layer
flagged exactly on the final transition. -/
lemma forwardLoop_acts_getD (act : ActName) :
    ∀ (ws : List (List (List ℝ))) (bs : List (List ℝ)) (l : Nat)
      (a : List ℝ) (acc : List (List ℝ)) (n : Nat), n < ws.length →
      (forwardLoop act ws bs l a acc).1.getD n [] =
        (forwardNeurons act (decide (n + 1 = ws.length)) (l + n) 0
          (ws.getD n []) (bs.getD (l + n) [])
          ((a :: (forwardLoop act ws bs l a acc).1).getD n [])).2.1 := by
  intro ws
  induction ws with
  | nil => intro bs l a acc n h; simp at h
  | cons wl wrest ih =>
      intro bs l a acc n h
      cases n with
      | zero =>
          cases wrest with
          | nil => simp [forwardLoop]
          | cons w2 wrest2 => simp [forwardLoop]
      | succ n =>
          have hn : n < wrest.length := by simpa using h
          have := ih bs (l + 1)
            (forwardNeurons act wrest.isEmpty l 0 wl (bs.getD l []) a).2.1
            (acc ++ [(forwardNeurons act wrest.isEmpty l 0 wl
              (bs.getD l []) a).2.1]) n hn
          simp only [forwardLoop, List.getD_cons_succ]
          rw [this]
          have harith : l + 1 + n = l + (n + 1) := by omega
          have hdec : (decide (n + 1 = wrest.length)) =
              (decide (n + 1 + 1 = wrest.length + 1)) := by
            simp
          simp [harith, hdec]

/-- Same recurrence for the recorded pre-activation vectors. -/
lemma forwardLoop_pre_getD (act : ActName) :
    ∀ (ws : List (List (List ℝ))) (bs : List (List ℝ)) (l : Nat)
      (a : List ℝ) (acc : List (List ℝ)) (n : Nat), n < ws.length →
      (forwardLoop act ws bs l a acc).2.1.getD n [] =
        (forwardNeurons act (decide (n + 1 = ws.length)) (l + n) 0
          (ws.getD n []) (bs.getD (l + n) [])
          ((a :: (forwardLoop act ws bs l a acc).1).getD n [])).1 := by
  intro ws
  induction ws with
  | nil => intro bs l a acc n h; simp at h
  | cons wl wrest ih =>
      intro bs l a acc n h
      cases n with
      | zero =>
          cases wrest with
          | nil => simp [forwardLoop]
          | cons w2 wrest2 => simp [forwardLoop]
      | succ n =>
          have hn : n < wrest.length := by simpa using h
          have := ih bs (l + 1)
            (forwardNeurons act wrest.isEmpty l 0 wl (bs.getD l []) a).2.1
            (acc ++ [(forwardNeurons act wrest.isEmpty l 0 wl
              (bs.getD l []) a).2.1]) n hn
          simp only [forwardLoop, List.getD_cons_succ]
          rw [this]
          have harith : l + 1 + n = l + (n + 1) := by omega
          have hdec : (decide (n + 1 = wrest.length)) =
              (decide (n + 1 + 1 = wrest.length + 1)) := by
            simp
          simp [harith, hdec]

/-- The final activation vector returned by the layer loop is the last
entry of the accumulated activations list. -/
lemma forwardLoop_final (act : ActName) :
    ∀ (ws : List (List (List ℝ))) (bs : List (List ℝ)) (l : Nat)
      (a : List ℝ) (acc : List (List ℝ)),
      (a :: (forwardLoop act ws bs l a acc).1).getLastD [] =
        (forwardLoop act ws bs l a acc).2.2.2 := by
  intro ws
  induction ws with
  | nil => intro bs l a acc; simp [forwardLoop]
  | cons wl wrest ih =>
      intro bs l a acc
      simp only [forwardLoop, List.getLastD_cons]
      have := ih bs (l + 1)
        (forwardNeurons act wrest.isEmpty l 0 wl (bs.getD l []) a).2.1
        (acc ++ [(forwardNeurons act wrest.isEmpty l 0 wl (bs.getD l [])
          a).2.1])
      rw [List.getLastD_cons] at this
      exact this

lemma forward_state_activations (nn : NN) (input : List ℝ) :
    (forward nn input).1.activations =
      input :: (forwardLoop nn.activationFunction nn.weights nn.biases 0
        input [input]).1 := rfl

lemma forward_state_preActivations (nn : NN) (input : List ℝ) :
    (forward nn input).1.preActivations =
      none :: (forwardLoop nn.activationFunction nn.weights nn.biases 0
        input [input]).2.1.map some := rfl

/-- Claim C4: in `forward(input)`, each non-input neuron records the
pre-activation `z = bias[j] + Σ_i weight[j][i] × activation_prev[i]` and
the activation `f(z)`, with `f` the configured activation on hidden
layers and always the (clamped) logistic sigmoid on the final layer. -/
theorem spec_c4_forward_neuron (nn : NN) (input : List ℝ) (l j : Nat)
    (hl : l < nn.weights.length)
    (hj : j < (nn.weights.getD l []).length) :
    (((forward nn input).1.preActivations.getD (l + 1) none).getD
        []).getD j 0 =
      (nn.biases.getD l []).getD j 0 +
        ∑ i in Finset.range
            (((forward nn input).1.activations.getD l []).length),
          ((nn.weights.getD l []).getD j []).getD i 0 *
            ((forward nn input).1.activations.getD l []).getD i 0 ∧
    ((forward nn input).1.activations.getD (l + 1) []).getD j 0 =
      (if l = nn.weights.length - 1
       then sigmoid ((((forward nn input).1.preActivations.getD (l + 1)
         none).getD []).getD j 0)
       else activate nn.activationFunction
         ((((forward nn input).1.preActivations.getD (l + 1) none).getD
           []).getD j 0) false) := by
  have hlen : (forwardLoop nn.activationFunction nn.weights nn.biases 0
      input [input]).2.1.length = nn.weights.length :=
    forwardLoop_pre_length _ _ _ _ _ _
  have h1 : (forward nn input).1.preActivations.getD (l + 1) none =
      some ((forwardLoop nn.activationFunction nn.weights nn.biases 0 input
        [input]).2.1.getD l []) := by
    rw [forward_state_preActivations, List.getD_cons_succ]
    exact getD_map_some _ l [] (by omega)
  have hpg := forwardLoop_pre_getD nn.activationFunction nn.weights
    nn.biases 0 input [input] l hl
  have hag := forwardLoop_acts_getD nn.activationFunction nn.weights
    nn.biases 0 input [input] l hl
  have hfn_pre := forwardNeurons_pre_getD nn.activationFunction
    (decide (l + 1 = nn.weights.length)) (0 + l) (nn.weights.getD l []) 0 j
    (nn.biases.getD (0 + l) [])
    ((input :: (forwardLoop nn.activationFunction nn.weights nn.biases 0
      input [input]).1).getD l []) hj
  have hfn_act := forwardNeurons_act_getD nn.activationFunction
    (decide (l + 1 = nn.weights.length)) (0 + l) (nn.weights.getD l []) 0 j
    (nn.biases.getD (0 + l) [])
    ((input :: (forwardLoop nn.activationFunction nn.weights nn.biases 0
      input [input]).1).getD l []) hj
  have hz : (((forward nn input).1.preActivations.getD (l + 1) none).getD
      []).getD j 0 =
      dotZ ((nn.biases.getD l []).getD j 0)
        ((input :: (forwardLoop nn.activationFunction nn.weights nn.biases
          0 input [input]).1).getD l [])
        ((nn.weights.getD l []).getD j []) := by
    rw [h1, Option.getD_some, hpg, hfn_pre]
    simp
  constructor
  · rw [hz, dotZ_eq_sum, forward_state_activations]
  · have ha : ((forward nn input).1.activations.getD (l + 1) []).getD j 0 =
        (if (decide (l + 1 = nn.weights.length) : Bool)
         then sigmoid (dotZ ((nn.biases.getD l []).getD j 0)
           ((input :: (forwardLoop nn.activationFunction nn.weights
             nn.biases 0 input [input]).1).getD l [])
           ((nn.weights.getD l []).getD j []))
         else activate nn.activationFunction
           (dotZ ((nn.biases.getD l []).getD j 0)
             ((input :: (forwardLoop nn.activationFunction nn.weights
               nn.biases 0 input [input]).1).getD l [])
             ((nn.weights.getD l []).getD j [])) false) := by
      rw [forward_state_activations, List.getD_cons_succ, hag, hfn_act]
      simp
    by_cases hcase : l + 1 = nn.weights.length
    · have hcase' : l = nn.weights.length - 1 := by omega
      have hb : (decide (l + 1 = nn.weights.length)) = true :=
        decide_eq_true hcase
      rw [ha, hz, hb, if_pos hcase']
      simp
    · have hcase' : ¬ l = nn.weights.length - 1 := by omega
      have hb : (decide (l + 1 = nn.weights.length)) = false :=
        decide_eq_false hcase
      rw [ha, hz, hb, if_neg hcase']
      simp

/-!  Characterization of the parameter-update phase. -/

lemma updateRow_w_length (lr : ℝ) (l j : Nat) (delta : ℝ) (al : List ℝ) :
    ∀ (ws : List ℝ) (i : Nat),
      (updateRow lr l j i ws delta al).1.length = ws.length := by
  intro ws
  induction ws with
  | nil => intro i; simp [updateRow]
  | cons w rest ih => intro i; simp [updateRow, ih]

lemma updateRow_g_length (lr : ℝ) (l j : Nat) (delta : ℝ) (al : List ℝ) :
    ∀ (ws : List ℝ) (i : Nat),
      (updateRow lr l j i ws delta al).2.1.length = ws.length := by
  intro ws
  induction ws with
  | nil => intro i; simp [updateRow]
  | cons w rest ih => intro i; simp [updateRow, ih]

lemma updateRow_w_getD (lr : ℝ) (l j : Nat) (delta : ℝ) (al : List ℝ) :
    ∀ (ws : List ℝ) (i n : Nat), n < ws.length →
      (updateRow lr l j i ws delta al).1.getD n 0 =
        ws.getD n 0 + -lr * (delta * al.getD (i + n) 0) := by
  intro ws
  induction ws with
  | nil => intro i n h; simp at h
  | cons w rest ih =>
      intro i n h
      cases n with
      | zero => simp [updateRow]
      | succ n =>
          have := ih (i + 1) n (by simpa using h)
          simpa [updateRow, Nat.add_assoc, Nat.add_comm 1 n] using this

lemma updateRow_g_getD (lr : ℝ) (l j : Nat) (delta : ℝ) (al : List ℝ) :
    ∀ (ws : List ℝ) (i n : Nat), n < ws.length →
      (updateRow lr l j i ws delta al).2.1.getD n 0 =
        delta * al.getD (i + n) 0 := by
  intro ws
  induction ws with
  | nil => intro i n h; simp at h
  | cons w rest ih =>
      intro i n h
      cases n with
      | zero => simp [updateRow]
      | succ n =>
          have := ih (i + 1) n (by simpa using h)
          simpa [updateRow, Nat.add_assoc, Nat.add_comm 1 n] using this

lemma updateRows_w_length (lr : ℝ) (l : Nat) (dl al : List ℝ) :
    ∀ (rows : List (List ℝ)) (j : Nat) (bl : List ℝ),
      (updateRows lr l j rows bl dl al).1.length = rows.length := by
  intro rows
  induction rows with
  | nil => intro j bl; simp [updateRows]
  | cons wj rest ih => intro j bl; simp [updateRows, ih]

lemma updateRows_b_length (lr : ℝ) (l : Nat) (dl al : List ℝ) :
    ∀ (rows : List (List ℝ)) (j : Nat) (bl : List ℝ),
      (updateRows lr l j rows bl dl al).2.1.length = bl.length := by
  intro rows
  induction rows with
  | nil => intro j bl; simp [updateRows]
  | cons wj rest ih => intro j bl; simp [updateRows, ih]

lemma updateRows_g_length (lr : ℝ) (l : Nat) (dl al : List ℝ) :
    ∀ (rows : List (List ℝ)) (j : Nat) (bl : List ℝ),
      (updateRows lr l j rows bl dl al).2.2.1.length = rows.length := by
  intro rows
  induction rows with
  | nil => intro j bl; simp [updateRows]
  | cons wj rest ih => intro j bl; simp [updateRows, ih]

lemma updateRows_bg_length (lr : ℝ) (l : Nat) (dl al : List ℝ) :
    ∀ (rows : List (List ℝ)) (j : Nat) (bl : List ℝ),
      (updateRows lr l j rows bl dl al).2.2.2.1.length = rows.length := by
  intro rows
  induction rows with
  | nil => intro j bl; simp [updateRows]
  | cons wj rest ih => intro j bl; simp [updateRows, ih]

lemma updateRows_w_getD (lr : ℝ) (l : Nat) (dl al : List ℝ) :
    ∀ (rows : List (List ℝ)) (j n : Nat) (bl : List ℝ), n < rows.length →
      (updateRows lr l j rows bl dl al).1.getD n [] =
        (updateRow lr l (j + n) 0 (rows.getD n []) (dl.getD (j + n) 0)
          al).1 := by
  intro rows
  induction rows with
  | nil => intro j n bl h; simp at h
  | cons wj rest ih =>
      intro j n bl h
      cases n with
      | zero => simp [updateRows]
      | succ n =>
          have := ih (j + 1) n
            (bl.set j (bl.getD j 0 - lr * dl.getD j 0)) (by simpa using h)
          simpa [updateRows, Nat.add_assoc, Nat.add_comm 1 n] using this

lemma updateRows_g_getD (lr : ℝ) (l : Nat) (dl al : List ℝ) :
    ∀ (rows : List (List ℝ)) (j n : Nat) (bl : List ℝ), n < rows.length →
      (updateRows lr l j rows bl dl al).2.2.1.getD n [] =
        (updateRow lr l (j + n) 0 (rows.getD n []) (dl.getD (j + n) 0)
          al).2.1 := by
  intro rows
  induction rows with
  | nil => intro j n bl h; simp at h
  | cons wj rest ih =>
      intro j n bl h
      cases n with
      | zero => simp [updateRows]
      | succ n =>
          have := ih (j + 1) n
            (bl.set j (bl.getD j 0 - lr * dl.getD j 0)) (by simpa using h)
          simpa [updateRows, Nat.add_assoc, Nat.add_comm 1 n] using this

lemma updateRows_bg_getD (lr : ℝ) (l : Nat) (dl al : List ℝ) :
    ∀ (rows : List (List ℝ)) (j n : Nat) (bl : List ℝ), n < rows.length →
      (updateRows lr l j rows bl dl al).2.2.2.1.getD n 0 =
        dl.getD (j + n) 0 := by
  intro rows
  induction rows with
  | nil => intro j n bl h; simp at h
  | cons wj rest ih =>
      intro j n bl h
      cases n with
      | zero => simp [updateRows]
      | succ n =>
          have := ih (j + 1) n
            (bl.set j (bl.getD j 0 - lr * dl.getD j 0)) (by simpa using h)
          simpa [updateRows, Nat.add_assoc, Nat.add_comm 1 n] using this

/-- Bias entries below the loop's starting index are never touched. -/
lemma updateRows_b_lo (lr : ℝ) (l : Nat) (dl al : List ℝ) :
    ∀ (rows : List (List ℝ)) (j q : Nat) (bl : List ℝ), q < j →
      (updateRows lr l j rows bl dl al).2.1.getD q 0 = bl.getD q 0 := by
  intro rows
  induction rows with
  | nil => intro j q bl h; simp [updateRows]
  | cons wj rest ih =>
      intro j q bl h
      have := ih (j + 1) q (bl.set j (bl.getD j 0 - lr * dl.getD j 0))
        (by omega)
      rw [updateRows]
      simp only []
      rw [this, getD_set_ne _ _ _ _ _ (by omega)]

/-- Each bias in range is decremented by `learningRate` times its delta. -/
lemma updateRows_b_getD (lr : ℝ) (l : Nat) (dl al : List ℝ) :
    ∀ (rows : List (List ℝ)) (j n : Nat) (bl : List ℝ), n < rows.length →
      j + n < bl.length →
      (updateRows lr l j rows bl dl al).2.1.getD (j + n) 0 =
        bl.getD (j + n) 0 - lr * dl.getD (j + n) 0 := by
  intro rows
  induction rows with
  | nil => intro j n bl h hb; simp at h
  | cons wj rest ih =>
      intro j n bl h hb
      cases n with
      | zero =>
          rw [Nat.add_zero] at hb ⊢
          rw [updateRows]
          simp only []
          rw [updateRows_b_lo lr l dl al rest (j + 1) j _ (by omega)]
          rw [getD_set_self _ _ _ _ hb]
      | succ n =>
          have hj : j + (n + 1) = (j + 1) + n := by omega
          have := ih (j + 1) n
            (bl.set j (bl.getD j 0 - lr * dl.getD j 0)) (by simpa using h)
            (by rw [List.length_set]; omega)
          rw [updateRows]
          simp only []
          rw [hj, this, getD_set_ne _ _ _ _ _ (by omega)]

lemma updateLoop_w_length (lr : ℝ) (ds acts : List (List ℝ)) :
    ∀ (ws : List (List (List ℝ))) (l : Nat) (bs : List (List ℝ)),
      (updateLoop lr l ws bs ds acts).1.length = ws.length := by
  intro ws
  induction ws with
  | nil => intro l bs; simp [updateLoop]
  | cons wl wrest ih => intro l bs; simp [updateLoop, ih]

lemma updateLoop_b_length (lr : ℝ) (ds acts : List (List ℝ)) :
    ∀ (ws : List (List (List ℝ))) (l : Nat) (bs : List (List ℝ)),
      (updateLoop lr l ws bs ds acts).2.1.length = bs.length := by
  intro ws
  induction ws with
  | nil => intro l bs; simp [updateLoop]
  | cons wl wrest ih =>
      intro l bs
      rw [updateLoop]
      simp only []
      rw [ih]
      simp

lemma updateLoop_g_length (lr : ℝ) (ds acts : List (List ℝ)) :
    ∀ (ws : List (List (List ℝ))) (l : Nat) (bs : List (List ℝ)),
      (updateLoop lr l ws bs ds acts).2.2.1.length = ws.length := by
  intro ws
  induction ws with
  | nil => intro l bs; simp [updateLoop]
  | cons wl wrest ih => intro l bs; simp [updateLoop, ih]

lemma updateLoop_bg_length (lr : ℝ) (ds acts : List (List ℝ)) :
    ∀ (ws : List (List (List ℝ))) (l : Nat) (bs : List (List ℝ)),
      (updateLoop lr l ws bs ds acts).2.2.2.1.length = ws.length := by
  intro ws
  induction ws with
  | nil => intro l bs; simp [updateLoop]
  | cons wl wrest ih => intro l bs; simp [updateLoop, ih]

lemma updateLoop_w_getD (lr : ℝ) (ds acts : List (List ℝ)) :
    ∀ (ws : List (List (List ℝ))) (l n : Nat) (bs : List (List ℝ)),
      n < ws.length →
      (updateLoop lr l ws bs ds acts).1.getD n [] =
        (updateRows lr (l + n) 0 (ws.getD n []) (bs.getD (l + n) [])
          (ds.getD (l + n) []) (acts.getD (l + n) [])).1 := by
  intro ws
  induction ws with
  | nil => intro l n bs h; simp at h
  | cons wl wrest ih =>
      intro l n bs h
      cases n with
      | zero => simp [updateLoop]
      | succ n =>
          have := ih (l + 1) n
            (bs.set l (updateRows lr l 0 wl (bs.getD l []) (ds.getD l [])
              (acts.getD l [])).2.1) (by simpa using h)
          rw [updateLoop]
          simp only [List.getD_cons_succ]
          rw [this, getD_set_ne _ _ _ _ _ (by omega)]
          have harith : l + 1 + n = l + (n + 1) := by omega
          rw [harith]

lemma updateLoop_g_getD (lr : ℝ) (ds acts : List (List ℝ)) :
    ∀ (ws : List (List (List ℝ))) (l n : Nat) (bs : List (List ℝ)),
      n < ws.length →
      (updateLoop lr l ws bs ds acts).2.2.1.getD n [] =
        (updateRows lr (l + n) 0 (ws.getD n []) (bs.getD (l + n) [])
          (ds.getD (l + n) []) (acts.getD (l + n) [])).2.2.1 := by
  intro ws
  induction ws with
  | nil => intro l n bs h; simp at h
  | cons wl wrest ih =>
      intro l n bs h
      cases n with
      | zero => simp [updateLoop]
      | succ n =>
          have := ih (l + 1) n
            (bs.set l (updateRows lr l 0 wl (bs.getD l []) (ds.getD l [])
              (acts.getD l [])).2.1) (by simpa using h)
          rw [updateLoop]
          simp only [List.getD_cons_succ]
          rw [this, getD_set_ne _ _ _ _ _ (by omega)]
          have harith : l + 1 + n = l + (n + 1) := by omega
          rw [harith]

lemma updateLoop_bg_getD (lr : ℝ) (ds acts : List (List ℝ)) :
    ∀ (ws : List (List (List ℝ))) (l n : Nat) (bs : List (List ℝ)),
      n < ws.length →
      (updateLoop lr l ws bs ds acts).2.2.2.1.getD n [] =
        (updateRows lr (l + n) 0 (ws.getD n []) (bs.getD (l + n) [])
          (ds.getD (l + n) []) (acts.getD (l + n) [])).2.2.2.1 := by
  intro ws
  induction ws with
  | nil => intro l n bs h; simp at h
  | cons wl wrest ih =>
      intro l n bs h
      cases n with
      | zero => simp [updateLoop]
      | succ n =>
          have := ih (l + 1) n
            (bs.set l (updateRows lr l 0 wl (bs.getD l []) (ds.getD l [])
              (acts.getD l [])).2.1) (by simpa using h)
          rw [updateLoop]
          simp only [List.getD_cons_succ]
          rw [this, getD_set_ne _ _ _ _ _ (by omega)]
          have harith : l + 1 + n = l + (n + 1) := by omega
          rw [harith]

/-- Bias layers below the loop's starting transition are never touched. -/
lemma updateLoop_b_lo (lr : ℝ) (ds acts : List (List ℝ)) :
    ∀ (ws : List (List (List ℝ))) (l q : Nat) (bs : List (List ℝ)), q < l →
      (updateLoop lr l ws bs ds acts).2.1.getD q [] = bs.getD q [] := by
  intro ws
  induction ws with
  | nil => intro l q bs h; simp [updateLoop]
  | cons wl wrest ih =>
      intro l q bs h
      have := ih (l + 1) q
        (bs.set l (updateRows lr l 0 wl (bs.getD l []) (ds.getD l [])
          (acts.getD l [])).2.1) (by omega)
      rw [updateLoop]
      simp only []
      rw [this, getD_set_ne _ _ _ _ _ (by omega)]

lemma updateLoop_b_getD (lr : ℝ) (ds acts : List (List ℝ)) :
    ∀ (ws : List (List (List ℝ))) (l n : Nat) (bs : List (List ℝ)),
      n < ws.length → l + n < bs.length →
      (updateLoop lr l ws bs ds acts).2.1.getD (l + n) [] =
        (updateRows lr (l + n) 0 (ws.getD n []) (bs.getD (l + n) [])
          (ds.getD (l + n) []) (acts.getD (l + n) [])).2.1 := by
  intro ws
  induction ws with
  | nil => intro l n bs h hb; simp at h
  | cons wl wrest ih =>
      intro l n bs h hb
      cases n with
      | zero =>
          rw [Nat.add_zero] at hb ⊢
          rw [updateLoop]
          simp only [List.getD_cons_zero]
          rw [updateLoop_b_lo lr ds acts wrest (l + 1) l _ (by omega)]
          rw [getD_set_self _ _ _ _ hb]
      | succ n =>
          have hj : l + (n + 1) = (l + 1) + n := by omega
          have := ih (l + 1) n
            (bs.set l (updateRows lr l 0 wl (bs.getD l []) (ds.getD l [])
              (acts.getD l [])).2.1) (by simpa using h)
            (by rw [List.length_set]; omega)
          rw [updateLoop]
          simp only []
          rw [hj, this, getD_set_ne _ _ _ _ _ (by omega)]
          simp

/-- Claim C1: in the update phase of `backward(target)`, every weight
gradient is `deltas[l][j] * activations[l][i]` (with the activations
recorded by the preceding forward pass), every weight becomes
`old - learningRate * gradient`, and every bias becomes
`old - learningRate * deltas[l][j]`. -/
theorem spec_c1_weight_bias_update (nn : NN) (target : ℝ) (l j i : Nat)
    (hl : l < nn.weights.length)
    (hlb : l < nn.biases.length)
    (hj : j < (nn.weights.getD l []).length)
    (hjb : j < (nn.biases.getD l []).length)
    (hi : i < ((nn.weights.getD l []).getD j []).length) :
    (((backward nn target).state.weightGradients.getD l []).getD j
        []).getD i 0 =
      ((backward nn target).state.deltas.getD l []).getD j 0 *
        (nn.activations.getD l []).getD i 0 ∧
    (((backward nn target).state.weights.getD l []).getD j []).getD i 0 =
      ((nn.weights.getD l []).getD j []).getD i 0 -
        nn.learningRate *
          (((backward nn target).state.deltas.getD l []).getD j 0 *
            (nn.activations.getD l []).getD i 0) ∧
    ((backward nn target).state.biases.getD l []).getD j 0 =
      (nn.biases.getD l []).getD j 0 -
        nn.learningRate *
          ((backward nn target).state.deltas.getD l []).getD j 0 := by
  have hw : (backward nn target).state.weights =
      (updateLoop nn.learningRate 0 nn.weights nn.biases
        (backward nn target).state.deltas nn.activations).1 := rfl
  have hg : (backward nn target).state.weightGradients =
      (updateLoop nn.learningRate 0 nn.weights nn.biases
        (backward nn target).state.deltas nn.activations).2.2.1 := rfl
  have hbs : (backward nn target).state.biases =
      (updateLoop nn.learningRate 0 nn.weights nn.biases
        (backward nn target).state.deltas nn.activations).2.1 := rfl
  have hg1 := updateLoop_g_getD nn.learningRate
    (backward nn target).state.deltas nn.activations nn.weights 0 l
    nn.biases hl
  have hw1 := updateLoop_w_getD nn.learningRate
    (backward nn target).state.deltas nn.activations nn.weights 0 l
    nn.biases hl
  have hb1 := updateLoop_b_getD nn.learningRate
    (backward nn target).state.deltas nn.activations nn.weights 0 l
    nn.biases hl (by simpa using hlb)
  rw [Nat.zero_add] at hg1 hw1 hb1
  have hj' : j < (nn.weights.getD l []).length := hj
  have hg2 := updateRows_g_getD nn.learningRate l
    ((backward nn target).state.deltas.getD l [])
    (nn.activations.getD l []) (nn.weights.getD l []) 0 j
    (nn.biases.getD l []) hj'
  have hw2 := updateRows_w_getD nn.learningRate l
    ((backward nn target).state.deltas.getD l [])
    (nn.activations.getD l []) (nn.weights.getD l []) 0 j
    (nn.biases.getD l []) hj'
  have hb2 := updateRows_b_getD nn.learningRate l
    ((backward nn target).state.deltas.getD l [])
    (nn.activations.getD l []) (nn.weights.getD l []) 0 j
    (nn.biases.getD l []) hj' (by simpa using hjb)
  rw [Nat.zero_add] at hg2 hw2 hb2
  have hg3 := updateRow_g_getD nn.learningRate l j
    (((backward nn target).state.deltas.getD l []).getD j 0)
    (nn.activations.getD l []) ((nn.weights.getD l []).getD j []) 0 i hi
  have hw3 := updateRow_w_getD nn.learningRate l j
    (((backward nn target).state.deltas.getD l []).getD j 0)
    (nn.activations.getD l []) ((nn.weights.getD l []).getD j []) 0 i hi
  rw [Nat.zero_add] at hg3 hw3
  refine ⟨?_, ?_, ?_⟩
  · rw [hg, hg1, hg2, hg3]
  · rw [hw, hw1, hw2, hw3]
    ring
  · rw [hbs, hb1, hb2]

/-!  Characterization of the hidden-delta phase. -/

lemma hiddenDeltaNeurons_getD (act : ActName) (l : Nat) (nd : List ℝ)
    (nw : List (List ℝ)) (pre : List ℝ) :
    ∀ (count j n : Nat), n < count →
      (hiddenDeltaNeurons act l j count nd nw pre).1.getD n 0 =
        deltaSumAt nd nw (j + n) *
          activate act (pre.getD (j + n) 0) true := by
  intro count
  induction count with
  | zero => intro j n h; simp at h
  | succ c ih =>
      intro j n h
      cases n with
      | zero => simp [hiddenDeltaNeurons]
      | succ n =>
          have := ih (j + 1) n (by simpa using h)
          simpa [hiddenDeltaNeurons, Nat.add_assoc, Nat.add_comm 1 n]
            using this

lemma hiddenDeltasLoop_length (act : ActName) (layers : List Nat)
    (ws : List (List (List ℝ))) (pre : List (Option (List ℝ))) :
    ∀ (k : Nat) (deltas : List (List ℝ)),
      (hiddenDeltasLoop act layers ws pre deltas k).1.length =
        deltas.length := by
  intro k
  induction k with
  | zero => intro deltas; simp [hiddenDeltasLoop]
  | succ k ih =>
      intro deltas
      rw [hiddenDeltasLoop]
      simp only []
      rw [ih]
      simp

/-- Delta rows at or above the loop counter keep their incoming value. -/
lemma hiddenDeltasLoop_hi (act : ActName) (layers : List Nat)
    (ws : List (List (List ℝ))) (pre : List (Option (List ℝ))) :
    ∀ (k : Nat) (deltas : List (List ℝ)) (n : Nat), k ≤ n →
      (hiddenDeltasLoop act layers ws pre deltas k).1.getD n [] =
        deltas.getD n [] := by
  intro k
  induction k with
  | zero => intro deltas n h; simp [hiddenDeltasLoop]
  | succ k ih =>
      intro deltas n h
      rw [hiddenDeltasLoop]
      simp only []
      rw [ih _ n (by omega), getD_set_ne _ _ _ _ _ (by omega)]

/-- Each hidden delta row in the final array is the neuron loop applied to
the (final) delta row of the next layer. -/
lemma hiddenDeltasLoop_getD (act : ActName) (layers : List Nat)
    (ws : List (List (List ℝ))) (pre : List (Option (List ℝ))) :
    ∀ (k : Nat) (deltas : List (List ℝ)), k ≤ deltas.length →
      ∀ l, l < k →
      (hiddenDeltasLoop act layers ws pre deltas k).1.getD l [] =
        (hiddenDeltaNeurons act l 0 (layers.getD (l + 1) 0)
          ((hiddenDeltasLoop act layers ws pre deltas k).1.getD (l + 1) [])
          (ws.getD (l + 1) [])
          ((pre.getD (l + 1) none).getD [])).1 := by
  intro k
  induction k with
  | zero => intro deltas hk l h; simp at h
  | succ k ih =>
      intro deltas hk l h
      by_cases hl : l = k
      · subst hl
        have h1 : (hiddenDeltasLoop act layers ws pre deltas (l + 1)).1.getD
            l [] = (deltas.set l
              (hiddenDeltaNeurons act l 0 (layers.getD (l + 1) 0)
                (deltas.getD (l + 1) []) (ws.getD (l + 1) [])
                ((pre.getD (l + 1) none).getD [])).1).getD l [] := by
          rw [hiddenDeltasLoop]
          simp only []
          rw [hiddenDeltasLoop_hi act layers ws pre l _ l (by omega)]
        have h2 : (hiddenDeltasLoop act layers ws pre deltas (l + 1)).1.getD
            (l + 1) [] = deltas.getD (l + 1) [] := by
          rw [hiddenDeltasLoop]
          simp only []
          rw [hiddenDeltasLoop_hi act layers ws pre l _ (l + 1) (by omega),
            getD_set_ne _ _ _ _ _ (by omega)]
        rw [h1, h2, getD_set_self _ _ _ _ (by omega)]
      · have hlk : l < k := by omega
        have := ih (deltas.set k
          (hiddenDeltaNeurons act k 0 (layers.getD (k + 1) 0)
            (deltas.getD (k + 1) []) (ws.getD (k + 1) [])
            ((pre.getD (k + 1) none).getD [])).1)
          (by rw [List.length_set]; omega) l hlk
        rw [hiddenDeltasLoop]
        simp only []
        exact this

/-- Claim C5: in `backward(target)` the output delta is
`error × output × (1 − output)` with `error = output − target` (sigmoid
derivative, independent of the configured activation), and each hidden
delta is `(Σ_k δ_next[k] × weight_next[k][j]) × f'(z_j)` with `f'` the
configured activation derivative, computed against the pre-update
weights. -/
theorem spec_c5_backward_deltas (nn : NN) (target : ℝ)
    (hm : 1 ≤ nn.weights.length) :
    (backward nn target).state.deltas.getD (nn.weights.length - 1) [] =
      [((nn.activations.getLastD []).getD 0 0 - target) *
        ((nn.activations.getLastD []).getD 0 0 *
          (1 - (nn.activations.getLastD []).getD 0 0))] ∧
    (∀ l, l + 1 < nn.weights.length → ∀ j, j < nn.layers.getD (l + 1) 0 →
      ((backward nn target).state.deltas.getD l []).getD j 0 =
        (∑ k in Finset.range
            ((backward nn target).state.deltas.getD (l + 1) []).length,
          ((backward nn target).state.deltas.getD (l + 1) []).getD k 0 *
            ((nn.weights.getD (l + 1) []).getD k []).getD j 0) *
          activate nn.activationFunction
            (((nn.preActivations.getD (l + 1) none).getD []).getD j 0)
            true) := by
  have hd : (backward nn target).state.deltas =
      (hiddenDeltasLoop nn.activationFunction nn.layers nn.weights
        nn.preActivations
        ((List.replicate nn.weights.length ([] : List ℝ)).set
          (nn.weights.length - 1)
          [((nn.activations.getLastD []).getD 0 0 - target) *
            ((nn.activations.getLastD []).getD 0 0 *
              (1 - (nn.activations.getLastD []).getD 0 0))])
        (nn.weights.length - 1)).1 := rfl
  have hk : nn.weights.length - 1 ≤
      ((List.replicate nn.weights.length ([] : List ℝ)).set
        (nn.weights.length - 1)
        [((nn.activations.getLastD []).getD 0 0 - target) *
          ((nn.activations.getLastD []).getD 0 0 *
            (1 - (nn.activations.getLastD []).getD 0 0))]).length := by
    rw [List.length_set, List.length_replicate]; omega
  constructor
  · rw [hd, hiddenDeltasLoop_hi _ _ _ _ _ _ _ (le_refl _),
      getD_set_self]
    rw [List.length_replicate]; omega
  · intro l hl j hj
    have hmain := hiddenDeltasLoop_getD nn.activationFunction nn.layers
      nn.weights nn.preActivations (nn.weights.length - 1) _ hk l (by omega)
    rw [hd, hmain, hiddenDeltaNeurons_getD _ _ _ _ _ _ _ j hj,
      deltaSumAt_eq_sum]
    rw [← hd]
    simp

/-- The output read back by `backward` from the stored activations is
exactly the value returned by the preceding `forward` call. -/
lemma backward_output_forward (nn : NN) (input : List ℝ) (target : ℝ) :
    (backward (forward nn input).1 target).output = (forward nn input).2 := by
  show ((forward nn input).1.activations.getLastD []).getD 0 0 =
    (forwardLoop nn.activationFunction nn.weights nn.biases 0 input
      [input]).2.2.2.getD 0 0
  rw [forward_state_activations, forwardLoop_final]

/-- Claim C8: `backward(target)` (and hence `train`) returns `{loss,
output, error}` with `output` the last forward output, `error = output -
target`, `loss = 0.5 × error²`; the loss is nonnegative and vanishes
exactly when the output equals the target. -/
theorem spec_c8_loss_output_error (nn : NN) (input : List ℝ) (target : ℝ) :
    (backward (forward nn input).1 target).output = (forward nn input).2 ∧
    (backward (forward nn input).1 target).error =
      (backward (forward nn input).1 target).output - target ∧
    (backward (forward nn input).1 target).loss =
      0.5 * (backward (forward nn input).1 target).error *
        (backward (forward nn input).1 target).error ∧
    0 ≤ (backward (forward nn input).1 target).loss ∧
    ((backward (forward nn input).1 target).loss = 0 ↔
      (backward (forward nn input).1 target).output = target) ∧
    (train nn input target).2.output = (forward nn input).2 ∧
    (train nn input target).2.error =
      (train nn input target).2.output - target ∧
    (train nn input target).2.loss =
      0.5 * (train nn input target).2.error *
        (train nn input target).2.error := by
  have herr : (backward (forward nn input).1 target).error =
      (backward (forward nn input).1 target).output - target := rfl
  have hloss : (backward (forward nn input).1 target).loss =
      0.5 * (backward (forward nn input).1 target).error *
        (backward (forward nn input).1 target).error := rfl
  have hnn : 0 ≤ (backward (forward nn input).1 target).loss := by
    rw [hloss]
    nlinarith [mul_self_nonneg ((backward (forward nn input).1 target).error)]
  have hiff : (backward (forward nn input).1 target).loss = 0 ↔
      (backward (forward nn input).1 target).output = target := by
    rw [hloss, herr]
    constructor
    · intro h
      have h2 : ((backward (forward nn input).1 target).output - target) *
          ((backward (forward nn input).1 target).output - target) = 0 := by
        nlinarith
      have := mul_self_eq_zero.mp h2
      linarith
    · intro h
      rw [h]
      ring
  refine ⟨backward_output_forward nn input target, herr, hloss, hnn, hiff,
    ?_, rfl, rfl⟩
  show (backward (forward (resetSteps nn) input).1 target).output =
    (forward nn input).2
  exact backward_output_forward (resetSteps nn) input target

lemma forward_state_steps (nn : NN) (input : List ℝ) :
    (forward nn input).1.steps =
      Step.input 0 ((List.range input.length).map (fun i => (0, i)))
        [input] ::
      (forwardLoop nn.activationFunction nn.weights nn.biases 0 input
        [input]).2.2.1 := rfl

lemma forward_snd (nn : NN) (input : List ℝ) :
    (forward nn input).2 =
      (forwardLoop nn.activationFunction nn.weights nn.biases 0 input
        [input]).2.2.2.getD 0 0 := rfl

lemma forward_state_weights (nn : NN) (input : List ℝ) :
    (forward nn input).1.weights = nn.weights := rfl

lemma forward_state_biases (nn : NN) (input : List ℝ) :
    (forward nn input).1.biases = nn.biases := rfl

lemma forward_state_act (nn : NN) (input : List ℝ) :
    (forward nn input).1.activationFunction = nn.activationFunction := rfl

/-- Claim C7: `forward` is deterministic — it depends only on the weights,
biases and configured activation (not on any other instance state), so two
calls with identical parameters and input produce identical outputs and
identical step traces; in particular calling it twice in a row does. -/
theorem spec_c7_forward_deterministic (nn1 nn2 : NN) (input : List ℝ)
    (hw : nn1.weights = nn2.weights) (hb : nn1.biases = nn2.biases)
    (ha : nn1.activationFunction = nn2.activationFunction) :
    (forward nn1 input).2 = (forward nn2 input).2 ∧
    (forward nn1 input).1.steps = (forward nn2 input).1.steps ∧
    (forward nn1 input).1.activations =
      (forward nn2 input).1.activations ∧
    (forward nn1 input).1.preActivations =
      (forward nn2 input).1.preActivations ∧
    (forward (forward nn1 input).1 input).2 = (forward nn1 input).2 ∧
    (forward (forward nn1 input).1 input).1.steps =
      (forward nn1 input).1.steps := by
  refine ⟨?_, ?_, ?_, ?_, ?_, ?_⟩
  · rw [forward_snd, forward_snd, hw, hb, ha]
  · rw [forward_state_steps, forward_state_steps, hw, hb, ha]
  · rw [forward_state_activations, forward_state_activations, hw, hb, ha]
  · rw [forward_state_preActivations, forward_state_preActivations,
      hw, hb, ha]
  · rw [forward_snd, forward_snd, forward_state_weights,
      forward_state_biases, forward_state_act]
  · rw [forward_state_steps, forward_state_steps, forward_state_weights,
      forward_state_biases, forward_state_act]

/-!  Shapes produced by initialization. -/

lemma initNeuronWeights_length (rnd : ℕ → ℝ) (limit : ℝ) :
    ∀ (n k : Nat), (initNeuronWeights rnd k n limit).1.length = n := by
  intro n
  induction n with
  | zero => intro k; simp [initNeuronWeights]
  | succ n ih => intro k; simp [initNeuronWeights, ih]

lemma initLayerWeights_length (rnd : ℕ → ℝ) (limit : ℝ) (cols : Nat) :
    ∀ (rows k : Nat),
      (initLayerWeights rnd k rows cols limit).1.length = rows := by
  intro rows
  induction rows with
  | zero => intro k; simp [initLayerWeights]
  | succ r ih => intro k; simp [initLayerWeights, ih]

lemma initLayerWeights_getD (rnd : ℕ → ℝ) (limit : ℝ) (cols : Nat) :
    ∀ (rows k n : Nat), n < rows →
      ((initLayerWeights rnd k rows cols limit).1.getD n []).length =
        cols := by
  intro rows
  induction rows with
  | zero => intro k n h; simp at h
  | succ r ih =>
      intro k n h
      cases n with
      | zero => simp [initLayerWeights, initNeuronWeights_length]
      | succ n =>
          have := ih (initNeuronWeights rnd k cols limit).2 n
            (by simpa using h)
          simpa [initLayerWeights] using this

lemma initLayerBiases_length (rnd : ℕ → ℝ) :
    ∀ (n k : Nat), (initLayerBiases rnd k n).1.length = n := by
  intro n
  induction n with
  | zero => intro k; simp [initLayerBiases]
  | succ n ih => intro k; simp [initLayerBiases, ih]

lemma initTransitions_w_length (rnd : ℕ → ℝ) :
    ∀ (ls : List Nat) (k : ℕ),
      (initTransitions rnd k ls).1.length = ls.length - 1 := by
  intro ls
  induction ls with
  | nil => intro k; simp [initTransitions]
  | cons a tail ih =>
      intro k
      cases tail with
      | nil => simp [initTransitions]
      | cons b rest =>
          rw [initTransitions]
          simp only [List.length_cons]
          rw [ih]
          simp

lemma initTransitions_b_length (rnd : ℕ → ℝ) :
    ∀ (ls : List Nat) (k : ℕ),
      (initTransitions rnd k ls).2.1.length = ls.length - 1 := by
  intro ls
  induction ls with
  | nil => intro k; simp [initTransitions]
  | cons a tail ih =>
      intro k
      cases tail with
      | nil => simp [initTransitions]
      | cons b rest =>
          rw [initTransitions]
          simp only [List.length_cons]
          rw [ih]
          simp

lemma initTransitions_w_getD (rnd : ℕ → ℝ) :
    ∀ (ls : List Nat) (k n : ℕ), n + 1 < ls.length →
      ((initTransitions rnd k ls).1.getD n []).length =
        ls.getD (n + 1) 0 := by
  intro ls
  induction ls with
  | nil => intro k n h; simp at h
  | cons a tail ih =>
      intro k n h
      cases tail with
      | nil => simp at h
      | cons b rest =>
          cases n with
          | zero => simp [initTransitions, initLayerWeights_length]
          | succ n =>
              have := ih ((initLayerBiases rnd (initLayerWeights rnd k b a (Real.sqrt (6 / ((a : ℝ) + (b : ℝ))))).2 b).2) n (by simpa using h)
              simpa [initTransitions] using this

lemma initTransitions_w_row (rnd : ℕ → ℝ) :
    ∀ (ls : List Nat) (k n : ℕ), n + 1 < ls.length → ∀ j,
      j < ((initTransitions rnd k ls).1.getD n []).length →
      (((initTransitions rnd k ls).1.getD n []).getD j []).length =
        ls.getD n 0 := by
  intro ls
  induction ls with
  | nil => intro k n h; simp at h
  | cons a tail ih =>
      intro k n h j hj
      cases tail with
      | nil => simp at h
      | cons b rest =>
          cases n with
          | zero =>
              rw [initTransitions] at hj ⊢
              simp only [List.getD_cons_zero] at hj ⊢
              rw [initLayerWeights_length] at hj
              exact initLayerWeights_getD rnd _ a b k j hj
          | succ n =>
              have := ih ((initLayerBiases rnd (initLayerWeights rnd k b a (Real.sqrt (6 / ((a : ℝ) + (b : ℝ))))).2 b).2) n (by simpa using h) j
                (by simpa [initTransitions] using hj)
              simpa [initTransitions] using this

lemma initTransitions_b_getD (rnd : ℕ → ℝ) :
    ∀ (ls : List Nat) (k n : ℕ), n + 1 < ls.length →
      ((initTransitions rnd k ls).2.1.getD n []).length =
        ls.getD (n + 1) 0 := by
  intro ls
  induction ls with
  | nil => intro k n h; simp at h
  | cons a tail ih =>
      intro k n h
      cases tail with
      | nil => simp at h
      | cons b rest =>
          cases n with
          | zero => simp [initTransitions, initLayerBiases_length]
          | succ n =>
              have := ih ((initLayerBiases rnd (initLayerWeights rnd k b a (Real.sqrt (6 / ((a : ℝ) + (b : ℝ))))).2 b).2) n (by simpa using h)
              simpa [initTransitions] using this

/-- The shape invariant of §3: one transition per adjacent layer pair;
`weights[l]` has `layers[l+1]` rows of `layers[l]` entries each and
`biases[l]` has `layers[l+1]` entries, for every transition `l`. -/
def Shapes (nn : NN) : Prop :=
  nn.weights.length + 1 = nn.layers.length ∧
  nn.biases.length + 1 = nn.layers.length ∧
  (∀ l, l < nn.weights.length →
    (nn.weights.getD l []).length = nn.layers.getD (l + 1) 0 ∧
    (∀ j, j < (nn.weights.getD l []).length →
      ((nn.weights.getD l []).getD j []).length = nn.layers.getD l 0) ∧
    (nn.biases.getD l []).length = nn.layers.getD (l + 1) 0)

/-- Shapes depend only on the `layers`, `weights` and `biases` fields. -/
lemma shapes_of_eq (nn1 nn2 : NN) (hl : nn1.layers = nn2.layers)
    (hw : nn1.weights = nn2.weights) (hb : nn1.biases = nn2.biases)
    (h : Shapes nn2) : Shapes nn1 := by
  rw [Shapes, hl, hw, hb]
  exact h

lemma shapes_initializeNetwork (nn : NN) (rnd : ℕ → ℝ) (k : ℕ) :
    Shapes ((initializeNetwork nn rnd k).1) := by
  have hlay : (initializeNetwork nn rnd k).1.layers =
      nn.inputSize ::
        (List.replicate nn.hiddenLayers nn.neuronsPerLayer ++ [1]) := rfl
  have hw : (initializeNetwork nn rnd k).1.weights =
      (initTransitions rnd k (nn.inputSize ::
        (List.replicate nn.hiddenLayers nn.neuronsPerLayer ++ [1]))).1 := rfl
  have hb : (initializeNetwork nn rnd k).1.biases =
      (initTransitions rnd k (nn.inputSize ::
        (List.replicate nn.hiddenLayers nn.neuronsPerLayer ++ [1]))).2.1 :=
    rfl
  have hlen : (nn.inputSize ::
      (List.replicate nn.hiddenLayers nn.neuronsPerLayer ++ [1])).length =
      nn.hiddenLayers + 2 := by simp
  refine ⟨?_, ?_, ?_⟩
  · rw [hw, hlay, initTransitions_w_length, hlen]; omega
  · rw [hb, hlay, initTransitions_b_length, hlen]; omega
  · intro l hl
    rw [hw, initTransitions_w_length, hlen] at hl
    refine ⟨?_, ?_, ?_⟩
    · rw [hw, hlay, initTransitions_w_getD]
      rw [hlen]; omega
    · intro j hj
      rw [hw] at hj ⊢
      rw [hlay]
      exact initTransitions_w_row rnd _ k l (by rw [hlen]; omega) j hj
    · rw [hb, hlay, initTransitions_b_getD]
      rw [hlen]; omega

lemma shapes_backward (nn : NN) (target : ℝ) (h : Shapes nn) :
    Shapes ((backward nn target).state) := by
  obtain ⟨hwl, hbl, hidx⟩ := h
  have hw : (backward nn target).state.weights =
      (updateLoop nn.learningRate 0 nn.weights nn.biases
        (backward nn target).state.deltas nn.activations).1 := rfl
  have hb : (backward nn target).state.biases =
      (updateLoop nn.learningRate 0 nn.weights nn.biases
        (backward nn target).state.deltas nn.activations).2.1 := rfl
  have hlay : (backward nn target).state.layers = nn.layers := rfl
  have hwlen : (backward nn target).state.weights.length =
      nn.weights.length := by rw [hw, updateLoop_w_length]
  have hblen : (backward nn target).state.biases.length =
      nn.biases.length := by rw [hb, updateLoop_b_length]
  refine ⟨by rw [hwlen, hlay]; exact hwl, by rw [hblen, hlay]; exact hbl,
    ?_⟩
  intro l hl
  rw [hwlen] at hl
  obtain ⟨h1, h2, h3⟩ := hidx l hl
  have hwg := updateLoop_w_getD nn.learningRate
    (backward nn target).state.deltas nn.activations nn.weights 0 l
    nn.biases hl
  have hbg := updateLoop_b_getD nn.learningRate
    (backward nn target).state.deltas nn.activations nn.weights 0 l
    nn.biases hl (by simpa using (by omega : l < nn.biases.length))
  rw [Nat.zero_add] at hwg hbg
  refine ⟨?_, ?_, ?_⟩
  · rw [hw, hwg, updateRows_w_length, hlay]
    exact h1
  · intro j hj
    rw [hw, hwg, updateRows_w_length] at hj
    rw [hw, hwg, updateRows_w_getD _ _ _ _ _ 0 j _ hj, Nat.zero_add,
      updateRow_w_length, hlay]
    exact h2 j hj
  · rw [hb, hbg, updateRows_b_length, hlay]
    exact h3

/-- Claim C3: the shape invariant holds after construction and
reinitialization, and is preserved by `forward`, `backward` and
`train`. -/
theorem spec_c3_shape_invariant :
    (∀ (cfg : Config) (rnd : ℕ → ℝ), Shapes (construct cfg rnd)) ∧
    (∀ (nn : NN) (rnd : ℕ → ℝ) (k : ℕ),
      Shapes ((initializeNetwork nn rnd k).1)) ∧
    (∀ (nn : NN) (input : List ℝ), Shapes nn →
      Shapes ((forward nn input).1)) ∧
    (∀ (nn : NN) (target : ℝ), Shapes nn →
      Shapes ((backward nn target).state)) ∧
    (∀ (nn : NN) (input : List ℝ) (target : ℝ), Shapes nn →
      Shapes ((train nn input target).1)) := by
  have hfwd : ∀ (nn : NN) (input : List ℝ), Shapes nn →
      Shapes ((forward nn input).1) := by
    intro nn input h
    exact shapes_of_eq _ nn rfl rfl rfl h
  refine ⟨?_, shapes_initializeNetwork, hfwd, shapes_backward, ?_⟩
  · intro cfg rnd
    exact shapes_initializeNetwork _ rnd 0
  · intro nn input target h
    have h1 : Shapes (resetSteps nn) := shapes_of_eq _ nn rfl rfl rfl h
    have h2 := hfwd (resetSteps nn) input h1
    exact shapes_backward _ target h2

/-- Counterexample to claim C2: with `hiddenLayers = 0` the constructor's
JS `||` default replaces the falsy `0` by `2`, so construction yields the
four-layer sequence `[1, 1, 1, 1]` instead of the claimed
`[inputSize, 1]`. -/
theorem spec_c2_counterexample :
    ¬ ((construct ⟨1, 0, 1, ActName.sigmoid, 0.5⟩ (fun _ => 0)).layers =
      1 :: (List.replicate 0 1 ++ [1])) := by
  have h : (construct ⟨1, 0, 1, ActName.sigmoid, 0.5⟩ (fun _ => 0)).layers =
      [1, 1, 1, 1] := rfl
  intro hc
  rw [h] at hc
  simp at hc

/-- Claim C2 as amended: for configurations with `inputSize ≥ 1`,
`hiddenLayerCount ≥ 1` and `neuronsPerHiddenLayer ≥ 1`, construction
produces the layer sequence `[inputSize, neuronsPerHiddenLayer repeated
hiddenLayerCount times, 1]` (a zero hidden-layer count is replaced by the
default of two hidden layers by the constructor's `||` normalization). -/
theorem spec_c2_amended (cfg : Config) (rnd : ℕ → ℝ)
    (h1 : 1 ≤ cfg.inputSize) (h2 : 1 ≤ cfg.hiddenLayers)
    (h3 : 1 ≤ cfg.neuronsPerLayer) :
    (construct cfg rnd).layers =
      cfg.inputSize ::
        (List.replicate cfg.hiddenLayers cfg.neuronsPerLayer ++ [1]) := by
  have hl : (construct cfg rnd).layers =
      jsOrNat cfg.inputSize 3 ::
        (List.replicate (jsOrNat cfg.hiddenLayers 2)
          (jsOrNat cfg.neuronsPerLayer 4) ++ [1]) := rfl
  rw [hl, jsOrNat, jsOrNat, jsOrNat, if_neg (by omega), if_neg (by omega),
    if_neg (by omega)]

/-- Witness for the amended C2 at a concrete configuration. -/
theorem spec_c2_amended_witness :
    (1 ≤ 2 ∧ 1 ≤ 1 ∧ 1 ≤ 3) ∧
    (construct ⟨2, 1, 3, ActName.relu, 0.5⟩ (fun _ => 0)).layers =
      2 :: (List.replicate 1 3 ++ [1]) :=
  ⟨by omega,
   spec_c2_amended ⟨2, 1, 3, ActName.relu, 0.5⟩ (fun _ => 0)
     (by decide) (by decide) (by decide)⟩

/-!  Step counting (trace completeness). -/

/-- Recognizer for `forward_neuron` steps. -/
def Step.isForwardNeuron : Step → Bool
  | Step.forward_neuron .. => true
  | _ => false

/-- Recognizer for `backward_delta` steps. -/
def Step.isBackwardDelta : Step → Bool
  | Step.backward_delta .. => true
  | _ => false

/-- Recognizer for `weight_update` steps. -/
def Step.isWeightUpdate : Step → Bool
  | Step.weight_update .. => true
  | _ => false

lemma forwardNeurons_counts (act : ActName) (isLast : Bool) (l : Nat) :
    ∀ (rows : List (List ℝ)) (j : Nat) (bl a : List ℝ),
      (forwardNeurons act isLast l j rows bl a).2.2.countP
        Step.isForwardNeuron = rows.length ∧
      (forwardNeurons act isLast l j rows bl a).2.2.countP
        Step.isBackwardDelta = 0 ∧
      (forwardNeurons act isLast l j rows bl a).2.2.countP
        Step.isWeightUpdate = 0 := by
  intro rows
  induction rows with
  | nil => intro j bl a; simp [forwardNeurons]
  | cons wj rest ih =>
      intro j bl a
      have := ih (j + 1) bl a
      simp [forwardNeurons, List.countP_cons, this.1, this.2.1, this.2.2,
        Step.isForwardNeuron, Step.isBackwardDelta, Step.isWeightUpdate]

lemma forwardLoop_counts (act : ActName) :
    ∀ (ws : List (List (List ℝ))) (bs : List (List ℝ)) (l : Nat)
      (a : List ℝ) (acc : List (List ℝ)),
      (forwardLoop act ws bs l a acc).2.2.1.countP Step.isForwardNeuron =
        (ws.map List.length).sum ∧
      (forwardLoop act ws bs l a acc).2.2.1.countP Step.isBackwardDelta =
        0 ∧
      (forwardLoop act ws bs l a acc).2.2.1.countP Step.isWeightUpdate =
        0 := by
  intro ws
  induction ws with
  | nil => intro bs l a acc; simp [forwardLoop]
  | cons wl wrest ih =>
      intro bs l a acc
      have h1 := forwardNeurons_counts act wrest.isEmpty l wl 0
        (bs.getD l []) a
      have h2 := ih bs (l + 1)
        (forwardNeurons act wrest.isEmpty l 0 wl (bs.getD l []) a).2.1
        (acc ++ [(forwardNeurons act wrest.isEmpty l 0 wl (bs.getD l [])
          a).2.1])
      rw [forwardLoop]
      simp only [List.countP_append, List.countP_cons]
      rw [h1.1, h1.2.1, h1.2.2, h2.1, h2.2.1, h2.2.2]
      simp [Step.isForwardNeuron, Step.isBackwardDelta,
        Step.isWeightUpdate]

lemma hiddenDeltaNeurons_counts (act : ActName) (l : Nat) (nd : List ℝ)
    (nw : List (List ℝ)) (pre : List ℝ) :
    ∀ (count j : Nat),
      (hiddenDeltaNeurons act l j count nd nw pre).2.countP
        Step.isBackwardDelta = count ∧
      (hiddenDeltaNeurons act l j count nd nw pre).2.countP
        Step.isForwardNeuron = 0 ∧
      (hiddenDeltaNeurons act l j count nd nw pre).2.countP
        Step.isWeightUpdate = 0 := by
  intro count
  induction count with
  | zero => intro j; simp [hiddenDeltaNeurons]
  | succ c ih =>
      intro j
      have := ih (j + 1)
      simp [hiddenDeltaNeurons, List.countP_cons, this.1, this.2.1,
        this.2.2, Step.isForwardNeuron, Step.isBackwardDelta,
        Step.isWeightUpdate]

lemma hiddenDeltasLoop_counts (act : ActName) (layers : List Nat)
    (ws : List (List (List ℝ))) (pre : List (Option (List ℝ))) :
    ∀ (k : Nat) (deltas : List (List ℝ)),
      (hiddenDeltasLoop act layers ws pre deltas k).2.countP
        Step.isBackwardDelta =
        ∑ l in Finset.range k, layers.getD (l + 1) 0 ∧
      (hiddenDeltasLoop act layers ws pre deltas k).2.countP
        Step.isForwardNeuron = 0 ∧
      (hiddenDeltasLoop act layers ws pre deltas k).2.countP
        Step.isWeightUpdate = 0 := by
  intro k
  induction k with
  | zero => intro deltas; simp [hiddenDeltasLoop]
  | succ k ih =>
      intro deltas
      have h1 := hiddenDeltaNeurons_counts act k (deltas.getD (k + 1) [])
        (ws.getD (k + 1) []) ((pre.getD (k + 1) none).getD [])
        (layers.getD (k + 1) 0) 0
      have h2 := ih (deltas.set k
        (hiddenDeltaNeurons act k 0 (layers.getD (k + 1) 0)
          (deltas.getD (k + 1) []) (ws.getD (k + 1) [])
          ((pre.getD (k + 1) none).getD [])).1)
      rw [hiddenDeltasLoop]
      simp only [List.countP_append]
      rw [h1.1, h1.2.1, h1.2.2, h2.1, h2.2.1, h2.2.2,
        Finset.sum_range_succ]
      omega

lemma updateRow_counts (lr : ℝ) (l j : Nat) (delta : ℝ) (al : List ℝ) :
    ∀ (ws : List ℝ) (i : Nat),
      (updateRow lr l j i ws delta al).2.2.countP Step.isWeightUpdate =
        ws.length ∧
      (updateRow lr l j i ws delta al).2.2.countP Step.isForwardNeuron =
        0 ∧
      (updateRow lr l j i ws delta al).2.2.countP Step.isBackwardDelta =
        0 := by
  intro ws
  induction ws with
  | nil => intro i; simp [updateRow]
  | cons w rest ih =>
      intro i
      have := ih (i + 1)
      simp [updateRow, List.countP_cons, this.1, this.2.1, this.2.2,
        Step.isForwardNeuron, Step.isBackwardDelta, Step.isWeightUpdate]

lemma updateRows_counts (lr : ℝ) (l : Nat) (dl al : List ℝ) :
    ∀ (rows : List (List ℝ)) (j : Nat) (bl : List ℝ),
      (updateRows lr l j rows bl dl al).2.2.2.2.countP
        Step.isWeightUpdate = (rows.map List.length).sum ∧
      (updateRows lr l j rows bl dl al).2.2.2.2.countP
        Step.isForwardNeuron = 0 ∧
      (updateRows lr l j rows bl dl al).2.2.2.2.countP
        Step.isBackwardDelta = 0 := by
  intro rows
  induction rows with
  | nil => intro j bl; simp [updateRows]
  | cons wj rest ih =>
      intro j bl
      have h1 := updateRow_counts lr l j (dl.getD j 0) al wj 0
      have h2 := ih (j + 1) (bl.set j (bl.getD j 0 - lr * dl.getD j 0))
      rw [updateRows]
      simp only [List.countP_append]
      rw [h1.1, h1.2.1, h1.2.2, h2.1, h2.2.1, h2.2.2]
      simp

lemma updateLoop_counts (lr : ℝ) (ds acts : List (List ℝ)) :
    ∀ (ws : List (List (List ℝ))) (l : Nat) (bs : List (List ℝ)),
      (updateLoop lr l ws bs ds acts).2.2.2.2.countP
        Step.isWeightUpdate =
        (ws.map (fun wl => (wl.map List.length).sum)).sum ∧
      (updateLoop lr l ws bs ds acts).2.2.2.2.countP
        Step.isForwardNeuron = 0 ∧
      (updateLoop lr l ws bs ds acts).2.2.2.2.countP
        Step.isBackwardDelta = 0 := by
  intro ws
  induction ws with
  | nil => intro l bs; simp [updateLoop]
  | cons wl wrest ih =>
      intro l bs
      have h1 := updateRows_counts lr l (ds.getD l []) (acts.getD l [])
        wl 0 (bs.getD l [])
      have h2 := ih (l + 1) (bs.set l (updateRows lr l 0 wl (bs.getD l [])
        (ds.getD l []) (acts.getD l [])).2.1)
      rw [updateLoop]
      simp only [List.countP_append]
      rw [h1.1, h1.2.1, h1.2.2, h2.1, h2.2.1, h2.2.2]
      simp

/-- Step counts appended by one `backward` call: no `forward_neuron`
steps, one output `backward_delta` step plus one per hidden neuron, and
one `weight_update` step per weight entry. -/
lemma backward_steps_counts (nn : NN) (target : ℝ) :
    (backward nn target).state.steps.countP Step.isForwardNeuron =
      nn.steps.countP Step.isForwardNeuron ∧
    (backward nn target).state.steps.countP Step.isBackwardDelta =
      nn.steps.countP Step.isBackwardDelta + 1 +
        ∑ l in Finset.range (nn.weights.length - 1),
          nn.layers.getD (l + 1) 0 ∧
    (backward nn target).state.steps.countP Step.isWeightUpdate =
      nn.steps.countP Step.isWeightUpdate +
        (nn.weights.map (fun wl => (wl.map List.length).sum)).sum := by
  have h1 := hiddenDeltasLoop_counts nn.activationFunction nn.layers
    nn.weights nn.preActivations (nn.weights.length - 1)
    ((List.replicate nn.weights.length ([] : List ℝ)).set
      (nn.weights.length - 1)
      [((nn.activations.getLastD []).getD 0 0 - target) *
        ((nn.activations.getLastD []).getD 0 0 *
          (1 - (nn.activations.getLastD []).getD 0 0))])
  have h2 := updateLoop_counts nn.learningRate
    (hiddenDeltasLoop nn.activationFunction nn.layers nn.weights
      nn.preActivations
      ((List.replicate nn.weights.length ([] : List ℝ)).set
        (nn.weights.length - 1)
        [((nn.activations.getLastD []).getD 0 0 - target) *
          ((nn.activations.getLastD []).getD 0 0 *
            (1 - (nn.activations.getLastD []).getD 0 0))])
      (nn.weights.length - 1)).1 nn.activations nn.weights 0 nn.biases
  have hsteps : (backward nn target).state.steps =
      nn.steps ++
        Step.loss ((nn.activations.getLastD []).getD 0 0) target
          ((nn.activations.getLastD []).getD 0 0 - target)
          (0.5 * ((nn.activations.getLastD []).getD 0 0 - target) *
            ((nn.activations.getLastD []).getD 0 0 - target)) ::
        Step.backward_delta (nn.layers.length - 1) none
          (((nn.activations.getLastD []).getD 0 0 - target) *
            ((nn.activations.getLastD []).getD 0 0 *
              (1 - (nn.activations.getLastD []).getD 0 0)))
          [(nn.layers.length - 1, 0)] none ::
        (hiddenDeltasLoop nn.activationFunction nn.layers nn.weights
          nn.preActivations
          ((List.replicate nn.weights.length ([] : List ℝ)).set
            (nn.weights.length - 1)
            [((nn.activations.getLastD []).getD 0 0 - target) *
              ((nn.activations.getLastD []).getD 0 0 *
                (1 - (nn.activations.getLastD []).getD 0 0))])
          (nn.weights.length - 1)).2 ++
        (updateLoop nn.learningRate 0 nn.weights nn.biases
          (hiddenDeltasLoop nn.activationFunction nn.layers nn.weights
            nn.preActivations
            ((List.replicate nn.weights.length ([] : List ℝ)).set
              (nn.weights.length - 1)
              [((nn.activations.getLastD []).getD 0 0 - target) *
                ((nn.activations.getLastD []).getD 0 0 *
                  (1 - (nn.activations.getLastD []).getD 0 0))])
            (nn.weights.length - 1)).1 nn.activations).2.2.2.2 ++
        [Step.complete (updateLoop nn.learningRate 0 nn.weights nn.biases
          (hiddenDeltasLoop nn.activationFunction nn.layers nn.weights
            nn.preActivations
            ((List.replicate nn.weights.length ([] : List ℝ)).set
              (nn.weights.length - 1)
              [((nn.activations.getLastD []).getD 0 0 - target) *
                ((nn.activations.getLastD []).getD 0 0 *
                  (1 - (nn.activations.getLastD []).getD 0 0))])
            (nn.weights.length - 1)).1 nn.activations).1
          nn.weights] := by rfl
  rw [hsteps]
  simp only [List.countP_append, List.countP_cons]
  rw [h1.1, h1.2.1, h1.2.2, h2.1, h2.2.1, h2.2.2]
  simp only [Step.isForwardNeuron, Step.isBackwardDelta,
    Step.isWeightUpdate, List.countP_nil]
  refine ⟨by simp, ?_, by simp⟩
  simp
  omega

/-- Claim C6: each `train` call rebuilds the step sequence from scratch
(the resulting trace is independent of the previous `steps` field), and
the rebuilt trace holds exactly one `forward_neuron` and one
`backward_delta` step per non-input neuron and one `weight_update` step
per weight.  The hypotheses say the state is a well-shaped network with a
single-neuron output layer, as produced by `initializeNetwork`. -/
theorem spec_c6_trace_counts (nn : NN) (input : List ℝ) (target : ℝ)
    (hs : Shapes nn) (hm : 1 ≤ nn.weights.length)
    (hout : nn.layers.getD (nn.layers.length - 1) 0 = 1) :
    (∀ s : List Step,
      (train { nn with steps := s } input target).1.steps =
        (train nn input target).1.steps) ∧
    (train nn input target).1.steps.countP Step.isForwardNeuron =
      ∑ l in Finset.range (nn.layers.length - 1),
        nn.layers.getD (l + 1) 0 ∧
    (train nn input target).1.steps.countP Step.isBackwardDelta =
      ∑ l in Finset.range (nn.layers.length - 1),
        nn.layers.getD (l + 1) 0 ∧
    (train nn input target).1.steps.countP Step.isWeightUpdate =
      ∑ l in Finset.range (nn.layers.length - 1),
        nn.layers.getD (l + 1) 0 * nn.layers.getD l 0 := by
  obtain ⟨hwl, hbl, hidx⟩ := hs
  have htrain : (train nn input target).1 =
      (backward (forward (resetSteps nn) input).1 target).state := rfl
  have hfw : (forward (resetSteps nn) input).1.weights = nn.weights := rfl
  have hfl : (forward (resetSteps nn) input).1.layers = nn.layers := rfl
  have hbc := backward_steps_counts (forward (resetSteps nn) input).1 target
  rw [hfw, hfl] at hbc
  have hfsteps : (forward (resetSteps nn) input).1.steps =
      Step.input 0 ((List.range input.length).map (fun i => (0, i)))
        [input] ::
      (forwardLoop nn.activationFunction nn.weights nn.biases 0 input
        [input]).2.2.1 := rfl
  have hflc := forwardLoop_counts nn.activationFunction nn.weights
    nn.biases 0 input [input]
  have hcFN : (forward (resetSteps nn) input).1.steps.countP
      Step.isForwardNeuron = (nn.weights.map List.length).sum := by
    rw [hfsteps, List.countP_cons, hflc.1]
    simp [Step.isForwardNeuron]
  have hcBD : (forward (resetSteps nn) input).1.steps.countP
      Step.isBackwardDelta = 0 := by
    rw [hfsteps, List.countP_cons, hflc.2.1]
    simp [Step.isBackwardDelta]
  have hcWU : (forward (resetSteps nn) input).1.steps.countP
      Step.isWeightUpdate = 0 := by
    rw [hfsteps, List.countP_cons, hflc.2.2]
    simp [Step.isWeightUpdate]
  have hr : nn.weights.length = nn.layers.length - 1 := by omega
  have hwsum : (nn.weights.map List.length).sum =
      ∑ l in Finset.range (nn.layers.length - 1),
        nn.layers.getD (l + 1) 0 := by
    rw [map_sum_eq_sum_getD nn.weights List.length []]
    rw [Finset.sum_congr rfl
      (fun i hi => (hidx i (Finset.mem_range.mp hi)).1), hr]
  have hwwsum : (nn.weights.map (fun wl => (wl.map List.length).sum)).sum =
      ∑ l in Finset.range (nn.layers.length - 1),
        nn.layers.getD (l + 1) 0 * nn.layers.getD l 0 := by
    rw [map_sum_eq_sum_getD nn.weights (fun wl => (wl.map List.length).sum)
      []]
    have hterm : ∀ i ∈ Finset.range nn.weights.length,
        ((nn.weights.getD i []).map List.length).sum =
          nn.layers.getD (i + 1) 0 * nn.layers.getD i 0 := by
      intro i hi
      obtain ⟨ha, hb, _⟩ := hidx i (Finset.mem_range.mp hi)
      rw [map_sum_eq_sum_getD _ List.length []]
      rw [Finset.sum_congr rfl
        (fun j hj => hb j (Finset.mem_range.mp hj))]
      rw [Finset.sum_const, Finset.card_range, smul_eq_mul, ha]
    rw [Finset.sum_congr rfl hterm, hr]
  have hbdsum : (1 : ℕ) + ∑ l in Finset.range (nn.weights.length - 1),
      nn.layers.getD (l + 1) 0 =
      ∑ l in Finset.range (nn.layers.length - 1),
        nn.layers.getD (l + 1) 0 := by
    have hm1 : nn.layers.length - 1 = (nn.weights.length - 1) + 1 := by
      omega
    rw [hm1, Finset.sum_range_succ]
    have : nn.layers.getD (nn.weights.length - 1 + 1) 0 = 1 := by
      have : nn.weights.length - 1 + 1 = nn.layers.length - 1 := by omega
      rw [this, hout]
    rw [this]
    omega
  refine ⟨fun s => rfl, ?_, ?_, ?_⟩
  · rw [htrain, hbc.1, hcFN, hwsum]
  · rw [htrain, hbc.2.1, hcBD, ← hbdsum]
  · rw [htrain, hbc.2.2, hcWU, hwwsum]
    omega

/-- Claim C9 as amended: `getNetworkData()` returns the engine's own
array references unchanged (object-literal aliasing, no copies), so an
assignment through any field of the returned object is an assignment to
the engine's corresponding array: the engine reads back the caller's
value.  The renderer must therefore treat the snapshot as read-only. -/
theorem spec_c9_amended (e : EngineRefs) :
    (getNetworkData e).layers = e.layers ∧
    (getNetworkData e).weights = e.weights ∧
    (getNetworkData e).biases = e.biases ∧
    (getNetworkData e).activations = e.activations ∧
    (getNetworkData e).preActivations = e.preActivations ∧
    (getNetworkData e).deltas = e.deltas ∧
    (getNetworkData e).weightGradients = e.weightGradients ∧
    (getNetworkData e).previousWeights = e.previousWeights ∧
    (∀ (h : JsHeap (List (List (List ℝ)))) (v : List (List (List ℝ))),
      heapWrite h (getNetworkData e).weights v e.weights = v) := by
  refine ⟨rfl, rfl, rfl, rfl, rfl, rfl, rfl, rfl, ?_⟩
  intro h v
  rw [getNetworkData, heapWrite]
  simp

/-- Counterexample to claim C9: writing `[[[2]]]` through the `weights`
field of the object returned by `getNetworkData` changes the weights the
engine itself reads — the snapshot is not a deep copy or immutable
view. -/
theorem spec_c9_counterexample :
    heapWrite (fun _ => [[[(1 : ℝ)]]])
        (getNetworkData ⟨0, 1, 2, 3, 4, 5, 6, 7⟩).weights [[[2]]]
        (EngineRefs.mk 0 1 2 3 4 5 6 7).weights ≠
      (fun _ => [[[(1 : ℝ)]]]) (EngineRefs.mk 0 1 2 3 4 5 6 7).weights := by
  rw [getNetworkData, heapWrite]
  simp

/-!  Step-cursor navigation (claim C10). -/

/-- The operations a caller can interleave on the step cursor. -/
inductive NNOp where
  | next
  | prev
  | reset
  | runTrain (input : List ℝ) (target : ℝ)

/-- Apply one cursor-affecting operation to the instance state. -/
noncomputable def applyOp (nn : NN) (op : NNOp) : NN :=
  match op with
  | NNOp.next => (nextStep nn).1
  | NNOp.prev => (previousStep nn).1
  | NNOp.reset => resetSteps nn
  | NNOp.runTrain input target => (train nn input target).1

/-- The cursor bound: `-1 ≤ currentStepIndex ≤ steps.length - 1`. -/
def CursorInv (nn : NN) : Prop :=
  -1 ≤ nn.currentStepIndex ∧
    nn.currentStepIndex ≤ (nn.steps.length : ℤ) - 1

lemma cursorInv_applyOp (nn : NN) (op : NNOp) (h : CursorInv nn) :
    CursorInv (applyOp nn op) := by
  obtain ⟨h1, h2⟩ := h
  cases op with
  | next =>
      rw [applyOp, nextStep]
      by_cases hc : nn.currentStepIndex < (nn.steps.length : ℤ) - 1
      · rw [if_pos hc]
        exact ⟨by simp; omega, by simp; omega⟩
      · rw [if_neg hc]
        exact ⟨h1, h2⟩
  | prev =>
      rw [applyOp, previousStep]
      by_cases hc : nn.currentStepIndex > 0
      · rw [if_pos hc]
        exact ⟨by simp; omega, by simp; omega⟩
      · rw [if_neg hc]
        exact ⟨h1, h2⟩
  | reset =>
      refine ⟨by simp [applyOp, resetSteps], ?_⟩
      simp [applyOp, resetSteps]
  | runTrain input target =>
      have hidx : ((train nn input target).1).currentStepIndex = -1 := rfl
      refine ⟨by rw [applyOp, hidx], ?_⟩
      rw [applyOp, hidx]
      have : (0 : ℤ) ≤ (((train nn input target).1).steps.length : ℤ) := by
        positivity
      omega

/-- Claim C10: the step cursor starts at `-1`, every interleaving of
`nextStep`, `previousStep`, `resetSteps` and `train` keeps it within
`[-1, steps.length - 1]` (hence `-1` while the trace is empty), and
`getCurrentStep` returns a step exactly when the cursor is in range. -/
theorem spec_c10_cursor_invariant :
    (∀ (cfg : Config) (rnd : ℕ → ℝ),
      (construct cfg rnd).currentStepIndex = -1 ∧
      CursorInv (construct cfg rnd)) ∧
    (∀ (nn : NN) (ops : List NNOp), CursorInv nn →
      CursorInv (ops.foldl applyOp nn)) ∧
    (∀ nn : NN, CursorInv nn → nn.steps = [] →
      nn.currentStepIndex = -1) ∧
    (∀ nn : NN, (∃ s, getCurrentStep nn = some s) ↔
      (0 ≤ nn.currentStepIndex ∧
        nn.currentStepIndex < (nn.steps.length : ℤ))) := by
  refine ⟨?_, ?_, ?_, ?_⟩
  · intro cfg rnd
    have h1 : (construct cfg rnd).currentStepIndex = -1 := rfl
    have h2 : (construct cfg rnd).steps = [] := rfl
    exact ⟨h1, by rw [CursorInv, h1, h2]; simp⟩
  · intro nn ops
    induction ops generalizing nn with
    | nil => intro h; exact h
    | cons op rest ih =>
        intro h
        exact ih (applyOp nn op) (cursorInv_applyOp nn op h)
  · intro nn h hempty
    obtain ⟨h1, h2⟩ := h
    rw [hempty] at h2
    simp at h2
    omega
  · intro nn
    rw [getCurrentStep]
    by_cases hc : 0 ≤ nn.currentStepIndex ∧
        nn.currentStepIndex < (nn.steps.length : ℤ)
    · rw [if_pos hc]
      constructor
      · intro _; exact hc
      · intro _
        have hlt : nn.currentStepIndex.toNat < nn.steps.length := by
          omega
        exact ⟨nn.steps.get ⟨nn.currentStepIndex.toNat, hlt⟩,
          List.get?_eq_get hlt⟩
    · rw [if_neg hc]
      constructor
      · rintro ⟨s, hs⟩
        exact absurd hs (by simp)
      · intro h
        exact absurd h hc

/-!  Concrete instance used by the witnesses: the `[2, 2, 1]` network of
the spec's concrete scenario (§8). -/

/-- A concrete `[2, 2, 1]` sigmoid network with fixed weights. -/
noncomputable def demoNN : NN :=
  { inputSize := 2, hiddenLayers := 1, neuronsPerLayer := 2,
    activationFunction := ActName.sigmoid, learningRate := 0.5,
    layers := [2, 2, 1],
    weights := [[[0.5, -0.3], [0.2, 0.4]], [[0.6, -0.2]]],
    biases := [[0.1, -0.1], [0.05]],
    activations := [], preActivations := [], deltas := [],
    weightGradients := [], biasGradients := [], previousWeights := [],
    steps := [], currentStepIndex := -1 }

/-- The same network with unrelated instance state changed (used to
witness the frame part of forward determinism). -/
noncomputable def demoNN2 : NN :=
  { demoNN with activations := [[1, 0.5]], currentStepIndex := 3 }

/-- Witness for C1 at transition 0, neuron 0, source 0 of `demoNN`. -/
theorem spec_c1_witness :
    (0 < demoNN.weights.length ∧ 0 < demoNN.biases.length ∧
     0 < (demoNN.weights.getD 0 []).length ∧
     0 < (demoNN.biases.getD 0 []).length ∧
     0 < ((demoNN.weights.getD 0 []).getD 0 []).length) ∧
    ((((backward demoNN 1).state.weightGradients.getD 0 []).getD 0
        []).getD 0 0 =
      ((backward demoNN 1).state.deltas.getD 0 []).getD 0 0 *
        (demoNN.activations.getD 0 []).getD 0 0 ∧
    (((backward demoNN 1).state.weights.getD 0 []).getD 0 []).getD 0 0 =
      ((demoNN.weights.getD 0 []).getD 0 []).getD 0 0 -
        demoNN.learningRate *
          (((backward demoNN 1).state.deltas.getD 0 []).getD 0 0 *
            (demoNN.activations.getD 0 []).getD 0 0) ∧
    ((backward demoNN 1).state.biases.getD 0 []).getD 0 0 =
      (demoNN.biases.getD 0 []).getD 0 0 -
        demoNN.learningRate *
          ((backward demoNN 1).state.deltas.getD 0 []).getD 0 0) :=
  ⟨⟨by decide, by decide, by decide, by decide, by decide⟩,
   spec_c1_weight_bias_update demoNN 1 0 0 0 (by decide) (by decide)
     (by decide) (by decide) (by decide)⟩

/-- Witness for C3: the shape invariant survives a `backward` call on the
well-shaped `demoNN`. -/
theorem spec_c3_witness :
    Shapes demoNN ∧ Shapes ((backward demoNN 1).state) :=
  ⟨⟨by decide, by decide, by decide⟩,
   spec_c3_shape_invariant.2.2.2.1 demoNN 1
     ⟨by decide, by decide, by decide⟩⟩

/-- Witness for C4 at the output transition of `demoNN`. -/
theorem spec_c4_witness :
    (1 < demoNN.weights.length ∧
     0 < (demoNN.weights.getD 1 []).length) ∧
    ((((forward demoNN [1, 0.5]).1.preActivations.getD 2 none).getD
        []).getD 0 0 =
      (demoNN.biases.getD 1 []).getD 0 0 +
        ∑ i in Finset.range
            (((forward demoNN [1, 0.5]).1.activations.getD 1 []).length),
          ((demoNN.weights.getD 1 []).getD 0 []).getD i 0 *
            ((forward demoNN [1, 0.5]).1.activations.getD 1 []).getD i 0 ∧
    ((forward demoNN [1, 0.5]).1.activations.getD 2 []).getD 0 0 =
      (if 1 = demoNN.weights.length - 1
       then sigmoid ((((forward demoNN [1, 0.5]).1.preActivations.getD 2
         none).getD []).getD 0 0)
       else activate demoNN.activationFunction
         ((((forward demoNN [1, 0.5]).1.preActivations.getD 2 none).getD
           []).getD 0 0) false)) :=
  ⟨⟨by decide, by decide⟩,
   spec_c4_forward_neuron demoNN [1, 0.5] 1 0 (by decide) (by decide)⟩

/-- Witness for C5 on `demoNN`. -/
theorem spec_c5_witness :
    1 ≤ demoNN.weights.length ∧
    ((backward demoNN 1).state.deltas.getD (demoNN.weights.length - 1)
        [] =
      [((demoNN.activations.getLastD []).getD 0 0 - 1) *
        ((demoNN.activations.getLastD []).getD 0 0 *
          (1 - (demoNN.activations.getLastD []).getD 0 0))] ∧
    (∀ l, l + 1 < demoNN.weights.length →
      ∀ j, j < demoNN.layers.getD (l + 1) 0 →
      ((backward demoNN 1).state.deltas.getD l []).getD j 0 =
        (∑ k in Finset.range
            ((backward demoNN 1).state.deltas.getD (l + 1) []).length,
          ((backward demoNN 1).state.deltas.getD (l + 1) []).getD k 0 *
            ((demoNN.weights.getD (l + 1) []).getD k []).getD j 0) *
          activate demoNN.activationFunction
            (((demoNN.preActivations.getD (l + 1) none).getD []).getD j 0)
            true)) :=
  ⟨by decide, spec_c5_backward_deltas demoNN 1 (by decide)⟩

/-- Witness for C6 on `demoNN`. -/
theorem spec_c6_witness :
    (Shapes demoNN ∧ 1 ≤ demoNN.weights.length ∧
      demoNN.layers.getD (demoNN.layers.length - 1) 0 = 1) ∧
    ((∀ s : List Step,
      (train { demoNN with steps := s } [1, 0.5] 1).1.steps =
        (train demoNN [1, 0.5] 1).1.steps) ∧
    (train demoNN [1, 0.5] 1).1.steps.countP Step.isForwardNeuron =
      ∑ l in Finset.range (demoNN.layers.length - 1),
        demoNN.layers.getD (l + 1) 0 ∧
    (train demoNN [1, 0.5] 1).1.steps.countP Step.isBackwardDelta =
      ∑ l in Finset.range (demoNN.layers.length - 1),
        demoNN.layers.getD (l + 1) 0 ∧
    (train demoNN [1, 0.5] 1).1.steps.countP Step.isWeightUpdate =
      ∑ l in Finset.range (demoNN.layers.length - 1),
        demoNN.layers.getD (l + 1) 0 * demoNN.layers.getD l 0) :=
  ⟨⟨⟨by decide, by decide, by decide⟩, by decide, by decide⟩,
   spec_c6_trace_counts demoNN [1, 0.5] 1
     ⟨by decide, by decide, by decide⟩ (by decide) (by decide)⟩

/-- Witness for C7: `demoNN` and `demoNN2` share weights, biases and
activation but differ in other instance state; `forward` agrees on
them. -/
theorem spec_c7_witness :
    (demoNN.weights = demoNN2.weights ∧ demoNN.biases = demoNN2.biases ∧
     demoNN.activationFunction = demoNN2.activationFunction) ∧
    ((forward demoNN [1, 0.5]).2 = (forward demoNN2 [1, 0.5]).2 ∧
    (forward demoNN [1, 0.5]).1.steps =
      (forward demoNN2 [1, 0.5]).1.steps ∧
    (forward demoNN [1, 0.5]).1.activations =
      (forward demoNN2 [1, 0.5]).1.activations ∧
    (forward demoNN [1, 0.5]).1.preActivations =
      (forward demoNN2 [1, 0.5]).1.preActivations ∧
    (forward (forward demoNN [1, 0.5]).1 [1, 0.5]).2 =
      (forward demoNN [1, 0.5]).2 ∧
    (forward (forward demoNN [1, 0.5]).1 [1, 0.5]).1.steps =
      (forward demoNN [1, 0.5]).1.steps) :=
  ⟨⟨rfl, rfl, rfl⟩,
   spec_c7_forward_deterministic demoNN demoNN2 [1, 0.5] rfl rfl rfl⟩

/-- Witness for C10: the cursor bound holds on `demoNN` and is preserved
by a concrete interleaving of cursor operations. -/
theorem spec_c10_witness :
    CursorInv demoNN ∧
    CursorInv ([NNOp.next, NNOp.prev, NNOp.reset].foldl applyOp demoNN) :=
  ⟨⟨by decide, by decide⟩,
   spec_c10_cursor_invariant.2.1 demoNN [NNOp.next, NNOp.prev, NNOp.reset]
     ⟨by decide, by decide⟩⟩

end NeuralNet
